import Mathlib

/-!
Verification of the constraint-repair and constraint-ordering core of the
VCS multi-phase equilibrium solver (files `vcs_elem.cpp` and
`vcs_elem_rearrange.cpp` of the `VCSnonideal` namespace).

All `double` arithmetic of the source is embedded as exact rational
arithmetic (`ℚ`); machine loops become `List.foldl` over `List.range`, or
fuel-indexed structural recursion when the source loop has data-dependent
exits.  Stateful code is embedded as explicit state passing on the record
`VCSState`, which aggregates the fields of the C++ class `VCS_SOLVE` that
this core reads or writes.
-/

set_option maxHeartbeats 1000000

namespace VCSnonideal

/-- Modelled from the spec: the tag marking interfacial-voltage unknowns
(`VCS_SPECIES_TYPE_INTERFACIALVOLTAGE` of `vcs_defs.h`, which is not among
the given sources).  Voltage unknowns are excluded from every abundance
sum; only equality with this tag is ever tested, so its numeric value is
arbitrary. -/
def VCS_SPECIES_TYPE_INTERFACIALVOLTAGE : ℤ := -1

/-- Modelled from the spec: the element-type tag for absolute-positive-only
constraints (`VCS_ELEM_TYPE_ABSPOS` of `vcs_defs.h`, not among the given
sources).  Only equality tests matter; the value is arbitrary but distinct
from the other tags. -/
def VCS_ELEM_TYPE_ABSPOS : ℕ := 0

/-- Modelled from the spec: the element-type tag for electron-charge
constraints (`VCS_ELEM_TYPE_ELECTRONCHARGE`, not among the given
sources). -/
def VCS_ELEM_TYPE_ELECTRONCHARGE : ℕ := 1

/-- Modelled from the spec: the element-type tag for charge-neutrality
constraints (`VCS_ELEM_TYPE_CHARGENEUTRALITY`, not among the given
sources). -/
def VCS_ELEM_TYPE_CHARGENEUTRALITY : ℕ := 2

/-- Modelled from the spec: a fourth, ordinary ("normal positive")
element-type tag, distinct from the three special ones. -/
def VCS_ELEM_TYPE_NORMAL : ℕ := 3

/-- Modelled from the spec: the fixed minor-species cutoff constant
(`VCS_DELETE_MINORSPECIES_CUTOFF` of `vcs_defs.h`, not among the given
sources).  The spec only requires it to be a fixed small positive
constant; we use `1e-32`. -/
def VCS_DELETE_MINORSPECIES_CUTOFF : ℚ := 1/10^32

/-- Modelled from the spec: species-status tag for a species zeroed in a
single-species phase (`VCS_SPECIES_ZEROEDSS`, not among the given
sources); arbitrary distinct value. -/
def VCS_SPECIES_ZEROEDSS : ℤ := 2

/-- Modelled from the spec: species-status tag for a species zeroed in a
multi-species phase (`VCS_SPECIES_ZEROEDMS`, not among the given
sources); arbitrary distinct value. -/
def VCS_SPECIES_ZEROEDMS : ℤ := 3

/-- The state of one equilibrium problem: the fields of `VCS_SOLVE`
touched by this core.  Arrays are total functions on `ℕ`; indices at or
beyond the stated counts are simply never read by the embedded routines.
The per-phase objects (`vcs_VolPhase`) contribute their element count
`nElemConstraints` and their local-to-global constraint map
`ElGlobalIndex`, flattened here as functions of the phase index. -/
structure VCSState where
  m_numElemConstraints : ℕ
  m_numComponents : ℕ
  m_numSpeciesTot : ℕ
  m_numSpeciesRdc : ℕ
  ga : ℕ → ℚ
  gai : ℕ → ℚ
  soln : ℕ → ℚ
  FormulaMatrix : ℕ → ℕ → ℚ
  SpeciesUnknownType : ℕ → ℤ
  m_elType : ℕ → ℕ
  ElActive : ℕ → Bool
  IndEl : ℕ → ℤ
  ElName : ℕ → String
  SSPhase : ℕ → Bool
  spStatus : ℕ → ℤ
  PhaseID : ℕ → ℕ
  NPhase : ℕ
  phNElemConstraints : ℕ → ℕ
  ElGlobalIndex : ℕ → ℕ → ℕ
  TPhMoles : ℕ → ℚ

/-- Embeds the accumulation loop of `VCS_SOLVE::vcs_elab` (vcs_elem.cpp
lines 28-35) for one constraint row `j`: sum `FormulaMatrix[j][k] *
soln[k]` over all species `k`, skipping interfacial-voltage unknowns. -/
def vcs_elab_row (s : VCSState) (j : ℕ) : ℚ :=
  (List.range s.m_numSpeciesTot).foldl
    (fun acc k =>
      if s.SpeciesUnknownType k ≠ VCS_SPECIES_TYPE_INTERFACIALVOLTAGE then
        acc + s.FormulaMatrix j k * s.soln k
      else acc) 0

/-- Embeds `VCS_SOLVE::vcs_elab` (vcs_elem.cpp lines 18-36): recompute the
current elemental-abundance vector `ga` from the mole numbers, skipping
interfacial-voltage unknowns.  Only the field `ga` changes. -/
def vcs_elab_run (s : VCSState) : VCSState :=
  { s with ga := fun j =>
      if j < s.m_numElemConstraints then vcs_elab_row s j else s.ga j }

/-- Embeds `VCS_SOLVE::vcs_elabPhase` (vcs_elem.cpp lines 138-161):
the elemental-abundance vector restricted to the species of one phase,
returned through the output buffer (entries beyond the first
`m_numElemConstraints` of the buffer are never written; we model the
buffer as the function that is zero there). -/
def vcs_elabPhase (s : VCSState) (iphase : ℕ) : ℕ → ℚ := fun j =>
  if j < s.m_numElemConstraints then
    (List.range s.m_numSpeciesTot).foldl
      (fun acc k =>
        if s.SpeciesUnknownType k ≠ VCS_SPECIES_TYPE_INTERFACIALVOLTAGE then
          if s.PhaseID k = iphase then acc + s.FormulaMatrix j k * s.soln k
          else acc
        else acc) 0
  else 0

/-- Embeds the scale computation of `vcs_elabcheck` (vcs_elem.cpp lines
90-108): the running maximum over species with a nonzero formula-matrix
entry of `|entry * mole number|`, started at the minor-species cutoff.
Note that the source loop runs over all species, without any test on
`SpeciesUnknownType`. -/
def vcs_elabcheck_scale (s : VCSState) (i : ℕ) : ℚ :=
  (List.range s.m_numSpeciesTot).foldl
    (fun sc k =>
      if s.FormulaMatrix i k ≠ 0 then max sc |s.FormulaMatrix i k * s.soln k|
      else sc)
    VCS_DELETE_MINORSPECIES_CUTOFF

/-- Embeds the multisign flag of `vcs_elabcheck` (vcs_elem.cpp lines
97-108): set exactly when some species (voltage unknowns included; the
source has no `SpeciesUnknownType` test here) has a negative
formula-matrix entry in row `i`. -/
def vcs_elabcheck_multisign (s : VCSState) (i : ℕ) : Bool :=
  (List.range s.m_numSpeciesTot).foldl
    (fun m k => if s.FormulaMatrix i k < 0 then true else m) false

/-- Embeds the body of `vcs_elabcheck`'s loop for one constraint `i`
(vcs_elem.cpp lines 82-129).  `none` models the `AssertThrowVCS` abort on
a charge-neutrality constraint with nonzero target; `some false` models
`return FALSE`; `some true` means the loop continues past `i`. -/
def vcs_elabcheck_one (s : VCSState) (i : ℕ) : Option Bool :=
  if |s.ga i - s.gai i| > |s.gai i| * (1/10^12) then
    if s.m_elType i = VCS_ELEM_TYPE_CHARGENEUTRALITY ∧ ¬(s.gai i = 0) then none
    else if s.gai i = 0 ∨ s.m_elType i = VCS_ELEM_TYPE_ELECTRONCHARGE then
      if vcs_elabcheck_multisign s i then
        if |s.ga i - s.gai i| > (1/10^11) * vcs_elabcheck_scale s i then some false
        else some true
      else
        if |s.ga i - s.gai i| > VCS_DELETE_MINORSPECIES_CUTOFF then some false
        else some true
    else some false
  else some true

/-- The early-exit loop of `vcs_elabcheck`, by recursion on the number
`rem` of constraints still to check, starting at index `i`. -/
def vcs_elabcheck_from (s : VCSState) : ℕ → ℕ → Option Bool
  | _, 0 => some true
  | i, rem + 1 =>
    match vcs_elabcheck_one s i with
    | none => none
    | some false => some false
    | some true => vcs_elabcheck_from s (i + 1) rem

/-- Embeds `VCS_SOLVE::vcs_elabcheck` (vcs_elem.cpp lines 69-132).
`ibound = true` checks all `m_numElemConstraints` constraints,
`ibound = false` only the first `m_numComponents`.  `none` models the
assertion abort. -/
def vcs_elabcheck (s : VCSState) (ibound : Bool) : Option Bool :=
  vcs_elabcheck_from s 0
    (if ibound then s.m_numElemConstraints else s.m_numComponents)

/-- Embeds `vcsUtil_dsw` / `vcsUtil_isw` / `vcsUtil_stsw`: exchange the
entries of an array at two positions. -/
def swapFn {α : Type} (f : ℕ → α) (i j : ℕ) : ℕ → α := fun x =>
  if x = i then f j else if x = j then f i else f x

/-- Embeds the per-entry body of the phase-object loop of
`vcs_switch_elem_pos` (vcs_elem_rearrange.cpp lines 230-237): two
consecutive `if` statements, the first rewriting `ipos` to `jpos`, the
second rewriting (a current value) `jpos` to `ipos`. -/
def elGlobalSwapEntry (v ipos jpos : ℕ) : ℕ :=
  let v1 := if v = ipos then jpos else v
  if v1 = jpos then ipos else v1

/-- The new local-to-global constraint map of every phase object after
`vcs_switch_elem_pos` (the loop at vcs_elem_rearrange.cpp lines 228-238):
entries of phases `iph < NPhase` at local positions
`e < nElemConstraints` are rewritten by `elGlobalSwapEntry`. -/
def elGlobalAfterSwitch (s : VCSState) (ipos jpos : ℕ) : ℕ → ℕ → ℕ :=
  fun iph e =>
    if iph < s.NPhase ∧ e < s.phNElemConstraints iph then
      elGlobalSwapEntry (s.ElGlobalIndex iph e) ipos jpos
    else s.ElGlobalIndex iph e

/-- The Formula Matrix after `vcs_switch_elem_pos` (the loop at
vcs_elem_rearrange.cpp lines 244-246): rows `ipos` and `jpos` are
exchanged, columns `j < m_numSpeciesTot` only. -/
def fmAfterSwitch (s : VCSState) (ipos jpos : ℕ) : ℕ → ℕ → ℚ :=
  fun r k =>
    if k < s.m_numSpeciesTot then swapFn (fun r' => s.FormulaMatrix r' k) ipos jpos r
    else s.FormulaMatrix r k

/-- Embeds `VCS_SOLVE::vcs_switch_elem_pos` (vcs_elem_rearrange.cpp lines
212-248): swap all constraint-indexed state at positions `ipos` and
`jpos`; immediate return when the two positions coincide. -/
def vcs_switch_elem_pos (s : VCSState) (ipos jpos : ℕ) : VCSState :=
  if ipos = jpos then s
  else
    { s with
      ElGlobalIndex := elGlobalAfterSwitch s ipos jpos,
      gai := swapFn s.gai ipos jpos,
      ga := swapFn s.ga ipos jpos,
      IndEl := swapFn s.IndEl ipos jpos,
      m_elType := swapFn s.m_elType ipos jpos,
      ElActive := swapFn s.ElActive ipos jpos,
      FormulaMatrix := fmAfterSwitch s ipos jpos,
      ElName := swapFn s.ElName ipos jpos }

/-- The determinant of the upper-left `n × n` block of an `ℕ`-indexed
rational matrix, by Laplace expansion along the first row (an executable
counterpart of `Matrix.det`, to which it is proved equal below). -/
def detQ : ℕ → (ℕ → ℕ → ℚ) → ℚ
  | 0, _ => 1
  | n + 1, c =>
    (List.range (n + 1)).foldl
      (fun acc j =>
        acc + (-1) ^ j * c 0 j *
          detQ n (fun r k => c (r + 1) (if k < j then k else k + 1)))
      0

/-- Replace column `i` of an `ℕ`-indexed matrix by the vector `b`. -/
def updateColumnQ (c : ℕ → ℕ → ℚ) (i : ℕ) (b : ℕ → ℚ) : ℕ → ℕ → ℚ :=
  fun r k => if k = i then b r else c r k

/-- Modelled from the spec: the generic dense linear-system solver
`vcsUtil_mlequ` (vcs_util.cpp, not among the given sources).  Per the
spec it is a square single-right-hand-side solver that returns a nonzero
status on singularity and whose solution is the correction direction,
i.e. it solves `C X + B = 0` (the source's own header comment for
`vcsUtil_mlequ` states exactly this equation).  In exact arithmetic
singularity is a zero determinant; on a regular matrix the unique
solution of `C X + B = 0` is returned, via Cramer's rule. -/
def vcsUtil_mlequ (n : ℕ) (c : ℕ → ℕ → ℚ) (b : ℕ → ℚ) : Option (ℕ → ℚ) :=
  let d := detQ n c
  if d = 0 then none
  else some fun i =>
    if i < n then detQ n (updateColumnQ c i (fun r => -b r)) / d
    else b i

/-- Modelled from the spec: the phase-totals recomputation routine
`vcs_tmoles` (not among the given sources): derived mole-number sums per
phase, recomputed from the current mole numbers. -/
def vcs_tmoles_calc (s : VCSState) (p : ℕ) : ℚ :=
  (List.range s.m_numSpeciesTot).foldl
    (fun acc k => if s.PhaseID k = p then acc + s.soln k else acc) 0

/-- Modelled from the spec: `vcs_tmoles` updates only the phase totals. -/
def vcs_tmoles (s : VCSState) : VCSState :=
  { s with TPhMoles := vcs_tmoles_calc s }

/-- Modelled from the spec: the species reinsertion operation
`vcs_reinsert_deleted` (not among the given sources) reactivates a
previously zeroed/removed species so it becomes eligible for the ad-hoc
repair: the reduced species count grows by one and the species status
becomes active again (status value `0`).  The spec states nothing more
about it. -/
def vcs_reinsert_deleted (s : VCSState) (kspec : ℕ) : VCSState :=
  { s with m_numSpeciesRdc := s.m_numSpeciesRdc + 1,
           spStatus := Function.update s.spStatus kspec 0 }

/-! ## The Abundance Corrector `vcs_elcorr` (vcs_elem.cpp lines 167-599)

The `goto`-based control flow is embedded as a sequential pipeline of
stage functions; a `Bool` component signals the `goto L_CLEANUP` jump.
`Option` models the `AssertThrowVCS` abort reachable through
`vcs_elabcheck`. -/

/-- Stage 1 per-row scan (vcs_elem.cpp lines 244-257): count of species
with a nonzero formula-matrix entry among non-voltage species. -/
def elcorr1_numNonZero (s : VCSState) (i : ℕ) : ℕ :=
  (List.range s.m_numSpeciesTot).foldl
    (fun n k =>
      if s.SpeciesUnknownType k ≠ VCS_SPECIES_TYPE_INTERFACIALVOLTAGE ∧
          s.FormulaMatrix i k ≠ 0 then n + 1 else n) 0

/-- Stage 1 per-row scan (vcs_elem.cpp lines 244-257): is there a
negative formula-matrix entry among non-voltage species? -/
def elcorr1_multisign (s : VCSState) (i : ℕ) : Bool :=
  (List.range s.m_numSpeciesTot).foldl
    (fun m k =>
      if s.SpeciesUnknownType k ≠ VCS_SPECIES_TYPE_INTERFACIALVOLTAGE ∧
          s.FormulaMatrix i k < 0 then true else m) false

/-- Stage 1, branch `numNonZero < 2` (vcs_elem.cpp lines 259-268): every
non-voltage species with a positive entry in row `i` is set to
`gai[i] / entry`. -/
def elcorr1_singleStep (i : ℕ) (st : VCSState × Bool) (k : ℕ) : VCSState × Bool :=
  let s := st.1
  if s.SpeciesUnknownType k ≠ VCS_SPECIES_TYPE_INTERFACIALVOLTAGE ∧
      s.FormulaMatrix i k > 0 then
    ({ s with soln := Function.update s.soln k (s.gai i / s.FormulaMatrix i k) }, true)
  else st

/-- Stage 1, other branch (vcs_elem.cpp lines 270-280): count of
component species with a positive entry in row `i` among non-voltage
species. -/
def elcorr1_numCompNonZero (s : VCSState) (i : ℕ) : ℕ :=
  (List.range s.m_numComponents).foldl
    (fun n k =>
      if s.SpeciesUnknownType k ≠ VCS_SPECIES_TYPE_INTERFACIALVOLTAGE ∧
          s.FormulaMatrix i k > 0 then n + 1 else n) 0

/-- Stage 1 (vcs_elem.cpp lines 270-280): the last matching component id.
The source initializes `compID` to `-1`; it is only read when
`numCompNonZero == 1`, in which case at least one match exists and the
initial value is irrelevant, so we may initialize with `0`. -/
def elcorr1_compID (s : VCSState) (i : ℕ) : ℕ :=
  (List.range s.m_numComponents).foldl
    (fun c k =>
      if s.SpeciesUnknownType k ≠ VCS_SPECIES_TYPE_INTERFACIALVOLTAGE ∧
          s.FormulaMatrix i k > 0 then k else c) 0

/-- Stage 1 inner loop over non-component species (vcs_elem.cpp lines
282-291): accumulate `diff` and (re)write the component's mole number on
every iteration, exactly as the source does. -/
def elcorr1_compStep (i cid : ℕ) (st : ℚ × VCSState × Bool) (k : ℕ) :
    ℚ × VCSState × Bool :=
  let s := st.2.1
  let d := if s.SpeciesUnknownType k ≠ VCS_SPECIES_TYPE_INTERFACIALVOLTAGE then
    st.1 - s.FormulaMatrix i k * s.soln k else st.1
  (d, { s with soln := Function.update s.soln cid (max 0 (d / s.FormulaMatrix i cid)) },
    true)

/-- Stage 1, one constraint row (vcs_elem.cpp lines 244-294). -/
def elcorr1_row (st : VCSState × Bool) (i : ℕ) : VCSState × Bool :=
  let s := st.1
  if ¬ elcorr1_multisign s i then
    if elcorr1_numNonZero s i < 2 then
      (List.range s.m_numSpeciesTot).foldl (elcorr1_singleStep i) st
    else if elcorr1_numCompNonZero s i = 1 then
      let cid := elcorr1_compID s i
      let r := (List.range' s.m_numComponents
          (s.m_numSpeciesTot - s.m_numComponents)).foldl
        (elcorr1_compStep i cid) (s.gai i, s, st.2)
      (r.2.1, r.2.2)
    else st
  else st

/-- Stage 1 of `vcs_elcorr` (vcs_elem.cpp lines 241-297): degenerate-row
direct solves, followed by an abundance recomputation when anything
changed. -/
def elcorr_stage1 (s : VCSState) : VCSState :=
  let r := (List.range s.m_numElemConstraints).foldl elcorr1_row (s, false)
  if r.2 then vcs_elab_run r.1 else r.1

/-- Stage 2 species step (vcs_elem.cpp lines 312-344): clamp a species to
the implied maximum `gai[i]/coefficient`, zeroing it (and tagging its
status) when the clamped value falls below the minor-species cutoff. -/
def elcorr2_spStep (i : ℕ) (st : VCSState × Bool) (k : ℕ) : VCSState × Bool :=
  let s := st.1
  if s.SpeciesUnknownType k ≠ VCS_SPECIES_TYPE_INTERFACIALVOLTAGE then
    let atomComp := s.FormulaMatrix i k
    if atomComp > 0 then
      let maxPermissible := s.gai i / atomComp
      if s.soln k > maxPermissible then
        if maxPermissible < VCS_DELETE_MINORSPECIES_CUTOFF then
          let newStatus : ℤ :=
            if s.SSPhase k then VCS_SPECIES_ZEROEDSS else VCS_SPECIES_ZEROEDMS
          let s' := { s with soln := Function.update s.soln k 0 }
          ({ s' with spStatus := Function.update s'.spStatus k newStatus }, true)
        else ({ s with soln := Function.update s.soln k maxPermissible }, true)
      else st
    else st
  else st

/-- Stage 2, one constraint row (vcs_elem.cpp lines 309-346): only
absolute-positive element types are processed. -/
def elcorr2_row (st : VCSState × Bool) (i : ℕ) : VCSState × Bool :=
  if st.1.m_elType i = VCS_ELEM_TYPE_ABSPOS then
    (List.range st.1.m_numSpeciesTot).foldl (elcorr2_spStep i) st
  else st

/-- Stage 2 of `vcs_elcorr` (vcs_elem.cpp lines 308-351): maximum-bounds
enforcement, followed by an abundance recomputation when anything
changed. -/
def elcorr_stage2 (s : VCSState) : VCSState :=
  let r := (List.range s.m_numElemConstraints).foldl elcorr2_row (s, false)
  if r.2 then vcs_elab_run r.1 else r.1

/-- Stage 3 (vcs_elem.cpp lines 358-364): `retn` becomes 1 when some
component discrepancy exceeds `1e-13`. -/
def elcorr3_retn (s : VCSState) : ℕ :=
  (List.range s.m_numComponents).foldl
    (fun r i => if |s.ga i - s.gai i| > 1/10^13 then 1 else r) 0

/-- Stage 3 (vcs_elem.cpp lines 358-365): the linear solve.  The matrix
entry at row `j`, column `i` is `FormulaMatrix[j][i]` and the right-hand
side is the component discrepancy vector. -/
def elcorr3_x (s : VCSState) : Option (ℕ → ℚ) :=
  vcsUtil_mlequ s.m_numComponents (fun j i => s.FormulaMatrix j i)
    (fun i => s.ga i - s.gai i)

/-- Stage 3 damping search (vcs_elem.cpp lines 373-379): the running
maximum, started at `0.5`, of `-x[i]/soln[i]` over positive-mole-number
components. -/
def elcorr3_par0 (s : VCSState) (x : ℕ → ℚ) : ℚ :=
  (List.range s.m_numComponents).foldl
    (fun par i =>
      if s.soln i > 0 then
        (if par < -x i / s.soln i then -x i / s.soln i else par)
      else par) (1/2)

/-- Stage 3 step application for one component (vcs_elem.cpp lines
387-397 and 400-411): add `par * x[i]`; a non-positive result zeroes a
single-species-phase component and shrinks any other component by
`1e-4`.  The undamped branch is the special case `par = 1`. -/
def elcorr3_applyStep (x : ℕ → ℚ) (par : ℚ) (s : VCSState) (i : ℕ) : VCSState :=
  let tmp := s.soln i + par * x i
  if tmp > 0 then { s with soln := Function.update s.soln i tmp }
  else if s.SSPhase i then { s with soln := Function.update s.soln i 0 }
  else { s with soln := Function.update s.soln i (s.soln i * (1/10^4)) }

/-- Stage 3 step application over all components. -/
def elcorr3_apply (s : VCSState) (x : ℕ → ℚ) (par : ℚ) : VCSState :=
  (List.range s.m_numComponents).foldl (elcorr3_applyStep x par) s

/-- Stage 3 of `vcs_elcorr` (vcs_elem.cpp lines 353-421): general damped
linear correction; `none` models the `VCS_FAILED_CONVERGENCE` early
return on a singular solve.  On success the pair holds the updated
`retn` and the state after the trailing `vcs_elab`/`vcs_tmoles` calls. -/
def elcorr_stage3 (s : VCSState) : Option (ℕ × VCSState) :=
  match elcorr3_x s with
  | none => none
  | some x =>
    let retn := elcorr3_retn s
    let par0 := elcorr3_par0 s x
    let par1 := if par0 > 100 then (100 : ℚ) else par0
    let par := 1 / par1
    if par < 1 ∧ par > 0 then
      some (2, vcs_tmoles (vcs_elab_run (elcorr3_apply s x (par * (9999/10000)))))
    else
      some (retn, vcs_tmoles (vcs_elab_run (elcorr3_apply s x 1)))

/-- Stage 4 good-species scan for one component constraint (vcs_elem.cpp
lines 435-458).  The carried triple is `(saveDir, goodSpec, broke)`. -/
def elcorr4_dirStep (s : VCSState) (kspec : ℕ) (st : ℚ × Bool × Bool) (i : ℕ) :
    ℚ × Bool × Bool :=
  if st.2.2 then st
  else
    let dir := s.FormulaMatrix i kspec * (s.gai i - s.ga i)
    if |dir| > 1/10^10 then
      if dir > 0 then
        (if st.1 < 0 then (st.1, false, true) else (dir, st.2.1, false))
      else
        (if st.1 > 0 then (st.1, false, true) else (dir, st.2.1, false))
    else
      if s.FormulaMatrix i kspec ≠ 0 then (st.1, false, true) else st

/-- Stage 4: is species `kspec` a "good" (win-win) species? -/
def elcorr4_dirGood (s : VCSState) (kspec : ℕ) : Bool :=
  ((List.range s.m_numComponents).foldl (elcorr4_dirStep s kspec)
    ((0 : ℚ), true, false)).2.1

/-- Stage 4 delta computation (vcs_elem.cpp lines 460-468): the average
over nonzero component entries of `(gai[i]-ga[i])/FormulaMatrix[i][kspec]`. -/
def elcorr4_xx (s : VCSState) (kspec : ℕ) : ℚ :=
  let p := (List.range s.m_numComponents).foldl
    (fun (st : ℚ × ℕ) i =>
      if s.FormulaMatrix i kspec ≠ 0 then
        (st.1 + (s.gai i - s.ga i) / s.FormulaMatrix i kspec, st.2 + 1)
      else st) (0, 0)
  if p.2 > 0 then p.1 / (p.2 : ℚ) else p.1

/-- Stage 4, one species (vcs_elem.cpp lines 431-483).  The `Bool`
component of the carrier records the `goto L_CLEANUP` taken on the
deleted-species reinsertion path. -/
def elcorr4_spec (st : VCSState × Bool) (kspec : ℕ) : VCSState × Bool :=
  if st.2 then st
  else
    let s := st.1
    if s.SpeciesUnknownType kspec = VCS_SPECIES_TYPE_INTERFACIALVOLTAGE then st
    else if elcorr4_dirGood s kspec then
      let xx := elcorr4_xx s kspec
      let s1 := { s with
        soln := Function.update s.soln kspec (max (s.soln kspec + xx) (1/10^10)) }
      if kspec ≥ s1.m_numSpeciesRdc then
        let s2 := vcs_reinsert_deleted s1 kspec
        let s3 := { s2 with
          soln := Function.update s2.soln (s2.m_numSpeciesRdc - 1) xx }
        (vcs_elab_run s3, true)
      else (vcs_elab_run s1, false)
    else st

/-- Stage 4 of `vcs_elcorr` (vcs_elem.cpp lines 426-484): ad-hoc
single-species repairs, attempted only when `retn >= 2`. -/
def elcorr_stage4 (retn : ℕ) (s : VCSState) : VCSState × Bool :=
  if retn ≥ 2 then (List.range s.m_numSpeciesTot).foldl elcorr4_spec (s, false)
  else (s, false)

/-- Stage 5 adjustment of one species for constraint `i` (vcs_elem.cpp
lines 494-513): subtract `ga[i]/coefficient`, floor at zero, recompute
abundances. -/
def elcorr5_apply (s : VCSState) (i kspec : ℕ) : VCSState :=
  let v := s.soln kspec - s.ga i / s.FormulaMatrix i kspec
  vcs_elab_run
    { s with soln := Function.update s.soln kspec (if v < 0 then 0 else v) }

/-- Stage 5 inner species loop with its `break` (vcs_elem.cpp lines
493-514). -/
def elcorr5_inner (i : ℕ) (st : VCSState × Bool) (kspec : ℕ) : VCSState × Bool :=
  if st.2 then st
  else
    let s := st.1
    if s.ga i > 0 ∧ s.FormulaMatrix i kspec < 0 then (elcorr5_apply s i kspec, true)
    else if s.ga i < 0 ∧ s.FormulaMatrix i kspec > 0 then (elcorr5_apply s i kspec, true)
    else st

/-- Stage 5, one constraint (vcs_elem.cpp lines 490-516): only
charge-neutrality constraints and absolute-positive constraints with a
zero target are processed. -/
def elcorr5_row (s : VCSState) (i : ℕ) : VCSState :=
  if s.m_elType i = VCS_ELEM_TYPE_CHARGENEUTRALITY ∨
      (s.m_elType i = VCS_ELEM_TYPE_ABSPOS ∧ s.gai i = 0) then
    ((List.range s.m_numSpeciesRdc).foldl (elcorr5_inner i) (s, false)).1
  else s

/-- Stage 5 of `vcs_elcorr` (vcs_elem.cpp lines 490-516). -/
def elcorr_stage5 (s : VCSState) : VCSState :=
  (List.range s.m_numElemConstraints).foldl elcorr5_row s

/-- Stage 6 `useZeroed` scan (vcs_elem.cpp lines 530-545): no species
with matching sign has a positive mole number. -/
def elcorr6_useZeroed (s : VCSState) (i : ℕ) (dev : ℚ) : Bool :=
  (List.range s.m_numSpeciesRdc).foldl
    (fun uz kspec =>
      if dev < 0 then
        (if s.FormulaMatrix i kspec < 0 ∧ s.soln kspec > 0 then false else uz)
      else
        (if s.FormulaMatrix i kspec > 0 ∧ s.soln kspec > 0 then false else uz))
    true

/-- Stage 6 inner species loop with its `break` (vcs_elem.cpp lines
546-571). -/
def elcorr6_inner (i : ℕ) (dev : ℚ) (uz : Bool) (st : VCSState × Bool)
    (kspec : ℕ) : VCSState × Bool :=
  if st.2 then st
  else
    let s := st.1
    if s.soln kspec > 0 ∨ uz then
      if dev < 0 ∧ s.FormulaMatrix i kspec < 0 then
        let v := s.soln kspec + dev / s.FormulaMatrix i kspec
        (vcs_elab_run
          { s with soln := Function.update s.soln kspec (if v < 0 then 0 else v) },
          true)
      else if dev > 0 ∧ s.FormulaMatrix i kspec > 0 then
        let v := s.soln kspec + dev / s.FormulaMatrix i kspec
        (vcs_elab_run
          { s with soln := Function.update s.soln kspec (if v < 0 then 0 else v) },
          true)
      else st
    else st

/-- Stage 6, one constraint (vcs_elem.cpp lines 527-573): electron-charge
constraints with a residual above `1e-300`.  The residual `dev` is
computed once, before the species loops. -/
def elcorr6_row (s : VCSState) (i : ℕ) : VCSState :=
  let dev := s.gai i - s.ga i
  if s.m_elType i = VCS_ELEM_TYPE_ELECTRONCHARGE ∧ |dev| > 1/10^300 then
    ((List.range s.m_numSpeciesRdc).foldl
      (elcorr6_inner i dev (elcorr6_useZeroed s i dev)) (s, false)).1
  else s

/-- Stage 6 of `vcs_elcorr` (vcs_elem.cpp lines 527-573). -/
def elcorr_stage6 (s : VCSState) : VCSState :=
  (List.range s.m_numElemConstraints).foldl elcorr6_row s

/-- The return value of `vcs_elcorr`: either the failed-convergence
status (`VCS_FAILED_CONVERGENCE`, from the singular linear solve) or one
of the documented numeric statuses. -/
inductive ElcorrRet : Type where
  | failedConvergence : ElcorrRet
  | status : ℕ → ElcorrRet
deriving DecidableEq, Repr

/-- Embeds `VCS_SOLVE::vcs_elcorr` (vcs_elem.cpp lines 167-599) as the
sequential pipeline of its six stages with the source's `goto L_CLEANUP`
short-circuits.  The final `vcs_tmoles` of the cleanup label is applied
on every normal return; the singular-solve return skips it as in the
source.  `none` models the assertion abort reachable through
`vcs_elabcheck`. -/
def vcs_elcorr (s0 : VCSState) : Option (ElcorrRet × VCSState) :=
  let s2 := elcorr_stage2 (elcorr_stage1 s0)
  match elcorr_stage3 s2 with
  | none => some (.failedConvergence, s2)
  | some (retn, s3) =>
    let r4 := elcorr_stage4 retn s3
    if r4.2 then some (.status retn, vcs_tmoles r4.1)
    else
      match vcs_elabcheck r4.1 false with
      | none => none
      | some true => some (.status 1, vcs_tmoles r4.1)
      | some false =>
        let s5 := elcorr_stage5 r4.1
        match vcs_elabcheck s5 true with
        | none => none
        | some true => some (.status 1, vcs_tmoles s5)
        | some false =>
          let s6 := elcorr_stage6 s5
          match vcs_elabcheck s6 true with
          | none => none
          | some true => some (.status 1, vcs_tmoles s6)
          | some false => some (.status retn, vcs_tmoles s6)

/-! ## The Constraint Rearranger `vcs_elem_rearrange`
(vcs_elem_rearrange.cpp lines 58-201) -/

/-- Embeds the sentinel-initialization `do`-`while` loop
(vcs_elem_rearrange.cpp lines 76-84).  One pass decrements `test` once
per constraint while copying `gai` into `aw`; the pass is repeated (with
`test` decremented further) while any constraint's `gai` collides with
the sentinel value current at its own iteration.  The loop is embedded
with fuel; at most `ne` passes can collide, so fuel `ne + 1` (used by
`vcs_elem_rearrange` below) always suffices, and `none` is unreachable
there. -/
def rearr_sentinel (gai : ℕ → ℚ) (ne : ℕ) : ℕ → ℚ → Option ℚ
  | 0, _ => none
  | fuel + 1, t0 =>
    if ∃ i ∈ Finset.range ne, gai i = t0 - ((i : ℚ) + 1) then
      rearr_sentinel gai ne fuel (t0 - ne)
    else some (t0 - ne)

/-- Embeds the candidate search (vcs_elem_rearrange.cpp lines 102-110):
the first constraint at position `>= jr` that is active and not yet
marked with the sentinel. -/
def rearr_findCand (s : VCSState) (aw : ℕ → ℚ) (test : ℚ) (jr : ℕ) : Option ℕ :=
  (List.range' jr (s.m_numElemConstraints - jr)).find?
    (fun ie => s.ElActive ie && decide (aw ie ≠ test))

/-- Embeds the Gram-Schmidt projection of candidate row `k` against the
previously accepted columns (vcs_elem_rearrange.cpp lines 136-162): the
coefficients `ss[j]` are all computed from the raw candidate row first,
then subtracted; entries at or beyond `m_numComponents` are never
written and stay zero. -/
def rearr_col (s : VCSState) (sm : ℕ → ℕ → ℚ) (sa : ℕ → ℚ) (jr k : ℕ) :
    ℕ → ℚ :=
  fun l =>
    if l < s.m_numComponents then
      s.FormulaMatrix k l -
        ∑ j ∈ Finset.range jr,
          ((∑ l' ∈ Finset.range s.m_numComponents,
              s.FormulaMatrix k l' * sm j l') / sa j) * sm j l
    else 0

/-- Embeds the squared-norm computation `sa[jr]`
(vcs_elem_rearrange.cpp lines 168-171). -/
def rearr_sa (s : VCSState) (col : ℕ → ℚ) : ℚ :=
  ∑ l ∈ Finset.range s.m_numComponents, col l ^ 2

/-- Embeds the inner `do`-`while(lindep)` loop (vcs_elem_rearrange.cpp
lines 97-177): pick the next candidate, mark it with the sentinel, form
and orthogonalize its row, and reject it (looping on) when the squared
residual norm is below `1e-6`.  `none` models the `exit(-1)` abort at
line 113 ("Shouldn't be here") when the search exhausts all
constraints; the fuel (one more than the constraint count at the call
site) cannot run out before that, since every iteration sentinel-marks a
fresh constraint. -/
def rearr_candLoop (s : VCSState) :
    (ℕ → ℚ) → (ℕ → ℕ → ℚ) → (ℕ → ℚ) → ℚ → ℕ → ℕ →
    Option (ℕ × (ℕ → ℚ) × (ℕ → ℕ → ℚ) × (ℕ → ℚ))
  | _, _, _, _, _, 0 => none
  | aw, sm, sa, test, jr, fuel + 1 =>
    match rearr_findCand s aw test jr with
    | none => none
    | some k =>
      let aw' := Function.update aw k test
      let col := rearr_col s sm sa jr k
      let sm' := Function.update sm jr col
      let sanew := rearr_sa s col
      let sa' := Function.update sa jr sanew
      if sanew < 1/10^6 then rearr_candLoop s aw' sm' sa' test jr fuel
      else some (k, aw', sm', sa')

/-- Embeds the outer `do`-`while` loop over accepted positions `jr`
(vcs_elem_rearrange.cpp lines 91-199), including the data rearrangement
(lines 181-192): on acceptance of candidate `k ≠ jr`, all per-constraint
state and the selection keys `aw` are swapped.  `none` propagates the
abort. -/
def rearr_outer (s : VCSState) (aw : ℕ → ℚ) (sm : ℕ → ℕ → ℚ) (sa : ℕ → ℚ)
    (test : ℚ) (jr : ℕ) : ℕ → Option VCSState
  | 0 => some s
  | count + 1 =>
    match rearr_candLoop s aw sm sa test jr (s.m_numElemConstraints + 1) with
    | none => none
    | some (k, aw', sm', sa') =>
      if jr ≠ k then
        rearr_outer (vcs_switch_elem_pos s jr k) (swapFn aw' jr k) sm' sa' test
          (jr + 1) count
      else rearr_outer s aw' sm' sa' test (jr + 1) count

/-- Embeds `VCS_SOLVE::vcs_elem_rearrange` (vcs_elem_rearrange.cpp lines
58-201).  The caller-provided scratch buffers `aw`, `sa`, `sm`, `ss`
carry no state in; every slot they expose is written before it is read,
so they are initialized to zero here.  The outer `do`-`while` executes
`max 1 m_numComponents` times (a C `do`-`while` body runs at least
once).  `some` is the `return VCS_SUCCESS` path; `none` is the
`exit(-1)` abort. -/
def vcs_elem_rearrange (s : VCSState) : Option VCSState :=
  match rearr_sentinel s.gai s.m_numElemConstraints
      (s.m_numElemConstraints + 1) (-(10 ^ 10)) with
  | none => none
  | some test =>
    rearr_outer s (fun i => if i < s.m_numElemConstraints then s.gai i else 0)
      (fun _ _ => 0) (fun _ => 0) test 0 (max 1 s.m_numComponents)

/-- The Gram-Schmidt data the accept-without-reject run of the
Rearranger builds: after `j` steps, the columns `0..j-1` and their
squared norms, each column orthogonalized against the previous ones and
taken from constraint row `j` itself.  This is the declarative
counterpart of `rearr_candLoop`'s accumulation, used to state
hypotheses and conclusions about the Rearranger. -/
def gsAcc (s : VCSState) : ℕ → ((ℕ → ℕ → ℚ) × (ℕ → ℚ))
  | 0 => (fun _ _ => 0, fun _ => 0)
  | j + 1 =>
    let p := gsAcc s j
    let col := rearr_col s p.1 p.2 j j
    (Function.update p.1 j col, Function.update p.2 j (rearr_sa s col))

/-- The squared residual norm of constraint row `j` (restricted to the
component columns) against rows `0..j-1`, per the source's
Gram-Schmidt recurrence. -/
def gsRes (s : VCSState) (j : ℕ) : ℚ := (gsAcc s (j + 1)).2 j

/-- The first `m_numComponents` constraint rows of the Formula Matrix
restricted to the `m_numComponents` component-species columns, as a
square matrix. -/
def componentRowsSquare (s : VCSState) :
    Matrix (Fin s.m_numComponents) (Fin s.m_numComponents) ℚ :=
  Matrix.of fun i j => s.FormulaMatrix i.val j.val

/-- Linear independence of the first `m_numComponents` constraint rows
restricted to the component columns: since the restriction is square,
this is a nonzero determinant. -/
def componentRowsIndependent (s : VCSState) : Prop :=
  (componentRowsSquare s).det ≠ 0

/-! ## Declarative companions used in theorem statements -/

/-- All constraint metadata and problem dimensions that `vcs_elcorr` and
`vcs_elabcheck` must leave untouched: the target abundances, the Formula
Matrix, the constraint type tags, active flags and names, and every
other field except the mole numbers, current abundances, species
statuses, reduced species count and phase totals. -/
def ElemMetaEq (s t : VCSState) : Prop :=
  t.m_numElemConstraints = s.m_numElemConstraints ∧
  t.m_numComponents = s.m_numComponents ∧
  t.m_numSpeciesTot = s.m_numSpeciesTot ∧
  t.gai = s.gai ∧
  t.FormulaMatrix = s.FormulaMatrix ∧
  t.SpeciesUnknownType = s.SpeciesUnknownType ∧
  t.m_elType = s.m_elType ∧
  t.ElActive = s.ElActive ∧
  t.ElName = s.ElName ∧
  t.SSPhase = s.SSPhase ∧
  t.PhaseID = s.PhaseID ∧
  t.NPhase = s.NPhase ∧
  t.phNElemConstraints = s.phNElemConstraints ∧
  t.ElGlobalIndex = s.ElGlobalIndex ∧
  t.IndEl = s.IndEl

/-- Declarative multisign classification as the code performs it: some
species (interfacial-voltage unknowns included) has a negative
coefficient in constraint row `i`. -/
def checker_multisignDecl (s : VCSState) (i : ℕ) : Prop :=
  ∃ k < s.m_numSpeciesTot, s.FormulaMatrix i k < 0

/-- Declarative scale: the maximum over species with a nonzero
coefficient in row `i` (interfacial-voltage unknowns included) of
`|coefficient * mole number|`, floored at the minor-species cutoff. -/
def checker_scaleDecl (s : VCSState) (i : ℕ) : ℚ :=
  (Finset.range s.m_numSpeciesTot).fold max VCS_DELETE_MINORSPECIES_CUTOFF
    (fun k =>
      if s.FormulaMatrix i k ≠ 0 then |s.FormulaMatrix i k * s.soln k|
      else VCS_DELETE_MINORSPECIES_CUTOFF)

/-- The declarative per-constraint compliance criterion actually decided
by `vcs_elabcheck` for a constraint it can pass: either the discrepancy
is within twelve digits of the target magnitude, or the constraint has a
zero target or is of electron-charge type and the discrepancy is within
`1e-11` of the scale (multisign row) respectively within the
minor-species cutoff (single-sign row). -/
def checkerPassDecl (s : VCSState) (i : ℕ) : Prop :=
  |s.ga i - s.gai i| ≤ |s.gai i| * (1/10^12) ∨
  ((s.gai i = 0 ∨ s.m_elType i = VCS_ELEM_TYPE_ELECTRONCHARGE) ∧
    ((checker_multisignDecl s i ∧
        |s.ga i - s.gai i| ≤ (1/10^11) * checker_scaleDecl s i) ∨
      (¬checker_multisignDecl s i ∧
        |s.ga i - s.gai i| ≤ VCS_DELETE_MINORSPECIES_CUTOFF)))

/-- The invariant carried through the Corrector's stages for the amended
nonnegativity claim: all mole numbers are nonnegative, all target
abundances are nonnegative, and no species has been deleted (so the
stage-4 reinsertion path is unreachable). -/
def NonnegInv (t : VCSState) : Prop :=
  (∀ k, 0 ≤ t.soln k) ∧ (∀ i, 0 ≤ t.gai i) ∧
    t.m_numSpeciesRdc = t.m_numSpeciesTot

/-- The number of active constraints. -/
def cardActive (s : VCSState) : ℕ :=
  ((Finset.range s.m_numElemConstraints).filter
    (fun i => s.ElActive i = true)).card

/-- The number of constraints still available to the Rearranger's
candidate search: active and not yet marked with the sentinel. -/
def cardAvail (s : VCSState) (aw : ℕ → ℚ) (test : ℚ) : ℕ :=
  ((Finset.range s.m_numElemConstraints).filter
    (fun i => s.ElActive i = true ∧ aw i ≠ test)).card

/-! ## Concrete problem instances for counterexamples and witnesses -/

/-- A base problem instance; the concrete instances below override the
relevant fields. -/
def baseState : VCSState where
  m_numElemConstraints := 0
  m_numComponents := 0
  m_numSpeciesTot := 0
  m_numSpeciesRdc := 0
  ga := fun _ => 0
  gai := fun _ => 0
  soln := fun _ => 0
  FormulaMatrix := fun _ _ => 0
  SpeciesUnknownType := fun _ => 0
  m_elType := fun _ => VCS_ELEM_TYPE_NORMAL
  ElActive := fun _ => true
  IndEl := fun _ => 0
  ElName := fun _ => ""
  SSPhase := fun _ => false
  spStatus := fun _ => 0
  PhaseID := fun _ => 0
  NPhase := 1
  phNElemConstraints := fun _ => 0
  ElGlobalIndex := fun _ e => e
  TPhMoles := fun _ => 0

/-- Instance for the `vcs_elab` witness: one constraint, one ordinary
species (coefficient 2, moles 3) and one interfacial-voltage species
(coefficient 5, moles 7). -/
def demoElabState : VCSState :=
  { baseState with
    m_numElemConstraints := 1
    m_numComponents := 1
    m_numSpeciesTot := 2
    m_numSpeciesRdc := 2
    soln := fun k => if k = 0 then 3 else 7
    FormulaMatrix := fun j k => if j = 0 then (if k = 0 then 2 else if k = 1 then 5 else 0) else 0
    SpeciesUnknownType := fun k =>
      if k = 1 then VCS_SPECIES_TYPE_INTERFACIALVOLTAGE else 0 }

/-- Instance for the phase-sum witness: one constraint, two species in
two different phases. -/
def demoPhaseState : VCSState :=
  { baseState with
    m_numElemConstraints := 1
    m_numComponents := 1
    m_numSpeciesTot := 2
    m_numSpeciesRdc := 2
    NPhase := 2
    PhaseID := fun k => if k = 0 then 0 else 1
    soln := fun k => if k = 0 then 3 else 7
    FormulaMatrix := fun j k => if j = 0 ∧ k < 2 then 1 else 0 }

/-- Instance refuting the claimed non-voltage-only multisign
classification of the Checker: constraint 0 has coefficient `+1` on the
ordinary species 0 (moles `1e-12`) and coefficient `-1` on the
interfacial-voltage species 1 (moles `1000`); the target is zero and the
stored abundance is the Evaluator's value `1e-12`. -/
def checkerCexState : VCSState :=
  { baseState with
    m_numElemConstraints := 1
    m_numComponents := 1
    m_numSpeciesTot := 2
    m_numSpeciesRdc := 2
    ga := fun j => if j = 0 then 1/10^12 else 0
    gai := fun _ => 0
    soln := fun k => if k = 0 then 1/10^12 else 1000
    FormulaMatrix := fun j k =>
      if j = 0 then (if k = 0 then 1 else if k = 1 then -1 else 0) else 0
    SpeciesUnknownType := fun k =>
      if k = 1 then VCS_SPECIES_TYPE_INTERFACIALVOLTAGE else 0 }

/-- Instance exposing the broken phase-map update of
`vcs_switch_elem_pos`: two constraints, one phase whose local constraint
map is the identity `[0, 1]`. -/
def switchCexState : VCSState :=
  { baseState with
    m_numElemConstraints := 2
    m_numComponents := 2
    m_numSpeciesTot := 1
    m_numSpeciesRdc := 1
    gai := fun i => if i = 0 then 10 else 20
    ga := fun i => if i = 0 then 1 else 2
    phNElemConstraints := fun _ => 2
    ElGlobalIndex := fun _ e => e }

/-- Instance exposing the status-contract violation of `vcs_elcorr`: one
constraint (ordinary type, target `-5`) over species `(+1)` with zero
moles and species `(-1)` with one mole; the stored abundance `-1` is the
Evaluator's value.  Every repair stage leaves the state untouched, yet
the routine reports status 1. -/
def elcorrCexState : VCSState :=
  { baseState with
    m_numElemConstraints := 1
    m_numComponents := 1
    m_numSpeciesTot := 2
    m_numSpeciesRdc := 2
    ga := fun j => if j = 0 then -1 else 0
    gai := fun j => if j = 0 then -5 else 0
    soln := fun k => if k = 0 then 0 else 1
    FormulaMatrix := fun j k =>
      if j = 0 then (if k = 0 then 1 else if k = 1 then -1 else 0) else 0 }

/-- Instance refuting the unconditional nonnegativity invariant: one
constraint of ordinary type with the (legitimately) negative target
`-1`, one species with coefficient `1` and entry moles `2`.  The
degenerate-row stage writes `gai/coefficient = -1` into the mole vector
and the stage-3 shrink leaves it at `-1e-4`. -/
def nonnegCexState : VCSState :=
  { baseState with
    m_numElemConstraints := 1
    m_numComponents := 1
    m_numSpeciesTot := 1
    m_numSpeciesRdc := 1
    ga := fun j => if j = 0 then 2 else 0
    gai := fun j => if j = 0 then -1 else 0
    soln := fun k => if k = 0 then 2 else 0
    FormulaMatrix := fun j k => if j = 0 ∧ k = 0 then 1 else 0 }

/-- Instance refuting monotonic improvement of the total squared
discrepancy: two constraints sharing the single component species
(coefficients `1` and `1`), targets `[2, 0]`, entry moles `[1]` with the
consistent stored abundances `[1, 1]`.  Stage 1 and stage 3 drive
constraint 0 to its target while pushing constraint 1 from discrepancy
`1` to `2`, so the total rises from `2` to `4`. -/
def elcorrL2CexState : VCSState :=
  { baseState with
    m_numElemConstraints := 2
    m_numComponents := 1
    m_numSpeciesTot := 1
    m_numSpeciesRdc := 1
    ga := fun j => if j < 2 then 1 else 0
    gai := fun j => if j = 0 then 2 else 0
    soln := fun k => if k = 0 then 1 else 0
    FormulaMatrix := fun j k => if j < 2 ∧ k = 0 then 1 else 0 }

/-- Instance refuting Rearranger idempotence on linearly independent
input: rows `[1, 0]` and `[1, 1e-4]` are linearly independent, but the
squared Gram-Schmidt residual of the second row is `1e-8 < 1e-6`, so the
source rejects it and then aborts with "Shouldn't be here". -/
def rearrCexState : VCSState :=
  { baseState with
    m_numElemConstraints := 2
    m_numComponents := 2
    m_numSpeciesTot := 2
    m_numSpeciesRdc := 2
    gai := fun i => if i < 2 then 1 else 0
    FormulaMatrix := fun j k =>
      if j = 0 ∧ k = 0 then 1
      else if j = 1 ∧ k = 0 then 1
      else if j = 1 ∧ k = 1 then 1/10^4
      else 0 }

/-- Instance for the Rearranger no-swap witness: the identity formula
matrix on two constraints and two component species. -/
def rearrDemoState : VCSState :=
  { baseState with
    m_numElemConstraints := 2
    m_numComponents := 2
    m_numSpeciesTot := 2
    m_numSpeciesRdc := 2
    gai := fun i => if i < 2 then 1 else 0
    FormulaMatrix := fun j k => if j = k ∧ j < 2 then 1 else 0 }

/-- Instance for the Rearranger abort witness: one declared component but
no active constraint. -/
def rearrAbortState : VCSState :=
  { baseState with
    m_numElemConstraints := 1
    m_numComponents := 1
    m_numSpeciesTot := 1
    m_numSpeciesRdc := 1
    ElActive := fun _ => false }

/-- Instance for the corrector-monotonicity witness: one component
constraint over two species with coefficients `(2, -1)` (multisign, so
the degenerate-row stage leaves it alone), target `4`, entry moles
`(1, 1)`, stored abundance `1`. -/
def elcorrL2DemoState : VCSState :=
  { baseState with
    m_numElemConstraints := 1
    m_numComponents := 1
    m_numSpeciesTot := 2
    m_numSpeciesRdc := 2
    ga := fun j => if j = 0 then 1 else 0
    gai := fun j => if j = 0 then 4 else 0
    soln := fun k => if k < 2 then 1 else 0
    FormulaMatrix := fun j k =>
      if j = 0 then (if k = 0 then 2 else if k = 1 then -1 else 0) else 0 }

/-- The stage-3 correction direction that the linear solver returns at
`elcorrL2DemoState`: `x[0] = -(ga[0]-gai[0])/FM[0][0] = 3/2`. -/
def elcorrL2DemoDir : ℕ → ℚ := fun i => if i < 1 then 3/2 else 0

/-- Instance for the nonnegativity witness: one constraint with target
`6`, one species with coefficient `2` and entry moles `1`. -/
def nonnegDemoState : VCSState :=
  { baseState with
    m_numElemConstraints := 1
    m_numComponents := 1
    m_numSpeciesTot := 1
    m_numSpeciesRdc := 1
    ga := fun j => if j = 0 then 2 else 0
    gai := fun j => if j = 0 then 6 else 0
    soln := fun k => if k = 0 then 1 else 0
    FormulaMatrix := fun j k => if j = 0 ∧ k = 0 then 2 else 0 }

/-! ## General helper lemmas -/

theorem foldl_range_add (f : ℚ → ℕ → ℚ) (g : ℕ → ℚ)
    (hf : ∀ a k, f a k = a + g k) (c : ℚ) (n : ℕ) :
    (List.range n).foldl f c = c + ∑ k ∈ Finset.range n, g k := by
  induction n with
  | zero => simp
  | succ n ih =>
    rw [List.range_succ, List.foldl_append, List.foldl_cons, List.foldl_nil, ih,
      hf, Finset.sum_range_succ]
    ring

theorem foldl_list_invariant {α : Type} (P : α → Prop) (f : α → ℕ → α)
    (l : List ℕ) (a : α) (ha : P a) (hf : ∀ x n, n ∈ l → P x → P (f x n)) :
    P (l.foldl f a) := by
  induction l generalizing a with
  | nil => exact ha
  | cons m t ih =>
    exact ih (f a m) (hf a m (List.mem_cons_self m t) ha)
      (fun x n hn hx => hf x n (List.mem_cons_of_mem m hn) hx)

/-! ## C5: the Abundance Evaluator -/

theorem vcs_elab_row_eq (s : VCSState) (j : ℕ) :
    vcs_elab_row s j =
      ∑ k ∈ Finset.range s.m_numSpeciesTot,
        (if s.SpeciesUnknownType k ≠ VCS_SPECIES_TYPE_INTERFACIALVOLTAGE then
          s.FormulaMatrix j k * s.soln k else 0) := by
  have h := foldl_range_add
    (fun acc k =>
      if s.SpeciesUnknownType k ≠ VCS_SPECIES_TYPE_INTERFACIALVOLTAGE then
        acc + s.FormulaMatrix j k * s.soln k
      else acc)
    (fun k =>
      if s.SpeciesUnknownType k ≠ VCS_SPECIES_TYPE_INTERFACIALVOLTAGE then
        s.FormulaMatrix j k * s.soln k else 0)
    (by
      intro a k
      by_cases hk : s.SpeciesUnknownType k ≠ VCS_SPECIES_TYPE_INTERFACIALVOLTAGE <;>
        simp [hk])
    0 s.m_numSpeciesTot
  simpa [vcs_elab_row] using h

/-- C5: for every mole-number vector and formula matrix, `vcs_elab`
writes, for each constraint `j` in range, exactly the sum over all
non-interfacial-voltage species of `FormulaMatrix[j][k] * soln[k]`;
voltage species contribute zero regardless of their coefficients (the
abundance is invariant under arbitrary changes of their coefficients);
and the routine changes no state other than the current-abundance
vector. -/
theorem C5_evaluator (s : VCSState) (j : ℕ) (hj : j < s.m_numElemConstraints) :
    (vcs_elab_run s).ga j =
      (∑ k ∈ Finset.range s.m_numSpeciesTot,
        (if s.SpeciesUnknownType k ≠ VCS_SPECIES_TYPE_INTERFACIALVOLTAGE then
          s.FormulaMatrix j k * s.soln k else 0)) ∧
    (∀ fm' : ℕ → ℕ → ℚ,
      (∀ k, s.SpeciesUnknownType k ≠ VCS_SPECIES_TYPE_INTERFACIALVOLTAGE →
        fm' j k = s.FormulaMatrix j k) →
      (vcs_elab_run { s with FormulaMatrix := fm' }).ga j = (vcs_elab_run s).ga j) ∧
    (vcs_elab_run s).soln = s.soln ∧
    (vcs_elab_run s).gai = s.gai ∧
    (vcs_elab_run s).FormulaMatrix = s.FormulaMatrix ∧
    (vcs_elab_run s).SpeciesUnknownType = s.SpeciesUnknownType ∧
    (vcs_elab_run s).m_elType = s.m_elType ∧
    (vcs_elab_run s).ElActive = s.ElActive ∧
    (vcs_elab_run s).ElName = s.ElName ∧
    (vcs_elab_run s).SSPhase = s.SSPhase ∧
    (vcs_elab_run s).spStatus = s.spStatus ∧
    (vcs_elab_run s).PhaseID = s.PhaseID ∧
    (vcs_elab_run s).NPhase = s.NPhase ∧
    (vcs_elab_run s).phNElemConstraints = s.phNElemConstraints ∧
    (vcs_elab_run s).ElGlobalIndex = s.ElGlobalIndex ∧
    (vcs_elab_run s).IndEl = s.IndEl ∧
    (vcs_elab_run s).TPhMoles = s.TPhMoles ∧
    (vcs_elab_run s).m_numElemConstraints = s.m_numElemConstraints ∧
    (vcs_elab_run s).m_numComponents = s.m_numComponents ∧
    (vcs_elab_run s).m_numSpeciesTot = s.m_numSpeciesTot ∧
    (vcs_elab_run s).m_numSpeciesRdc = s.m_numSpeciesRdc := by
  refine ⟨?_, ?_, rfl, rfl, rfl, rfl, rfl, rfl, rfl, rfl, rfl, rfl, rfl, rfl,
    rfl, rfl, rfl, rfl, rfl, rfl, rfl⟩
  · simp [vcs_elab_run, hj, vcs_elab_row_eq]
  · intro fm' hfm
    simp only [vcs_elab_run, hj, if_pos, vcs_elab_row_eq]
    exact Finset.sum_congr rfl fun k _ => by
      by_cases hk : s.SpeciesUnknownType k = VCS_SPECIES_TYPE_INTERFACIALVOLTAGE
      · simp [hk]
      · simp [hk, hfm k hk]

/-- Witness for C5 at a concrete instance. -/
theorem C5_evaluator_witness :
    0 < demoElabState.m_numElemConstraints ∧
    (vcs_elab_run demoElabState).ga 0 =
      (∑ k ∈ Finset.range demoElabState.m_numSpeciesTot,
        (if demoElabState.SpeciesUnknownType k ≠
            VCS_SPECIES_TYPE_INTERFACIALVOLTAGE then
          demoElabState.FormulaMatrix 0 k * demoElabState.soln k else 0)) :=
  ⟨by norm_num [demoElabState, baseState],
    (C5_evaluator demoElabState 0 (by norm_num [demoElabState, baseState])).1⟩

/-! ## C10: phase abundances sum to total abundances -/

theorem vcs_elabPhase_eq (s : VCSState) (p j : ℕ)
    (hj : j < s.m_numElemConstraints) :
    vcs_elabPhase s p j =
      ∑ k ∈ Finset.range s.m_numSpeciesTot,
        (if s.SpeciesUnknownType k ≠ VCS_SPECIES_TYPE_INTERFACIALVOLTAGE ∧
            s.PhaseID k = p then
          s.FormulaMatrix j k * s.soln k else 0) := by
  have h := foldl_range_add
    (fun acc k =>
      if s.SpeciesUnknownType k ≠ VCS_SPECIES_TYPE_INTERFACIALVOLTAGE then
        if s.PhaseID k = p then acc + s.FormulaMatrix j k * s.soln k else acc
      else acc)
    (fun k =>
      if s.SpeciesUnknownType k ≠ VCS_SPECIES_TYPE_INTERFACIALVOLTAGE ∧
          s.PhaseID k = p then
        s.FormulaMatrix j k * s.soln k else 0)
    (by
      intro a k
      by_cases h1 : s.SpeciesUnknownType k = VCS_SPECIES_TYPE_INTERFACIALVOLTAGE <;>
        by_cases h2 : s.PhaseID k = p <;> simp [h1, h2])
    0 s.m_numSpeciesTot
  simpa [vcs_elabPhase, hj] using h

/-- C10: when every species lies in a phase index below `NPhase`, the
per-phase abundance vectors of `vcs_elabPhase` sum, constraint-wise, to
the total abundance vector computed by `vcs_elab` from the same mole
numbers and formula matrix. -/
theorem C10_phase_decomposition (s : VCSState) (j : ℕ)
    (hj : j < s.m_numElemConstraints)
    (hph : ∀ k < s.m_numSpeciesTot, s.PhaseID k < s.NPhase) :
    ∑ p ∈ Finset.range s.NPhase, vcs_elabPhase s p j = (vcs_elab_run s).ga j := by
  have hL : ∀ p ∈ Finset.range s.NPhase,
      vcs_elabPhase s p j =
        ∑ k ∈ Finset.range s.m_numSpeciesTot,
          (if s.SpeciesUnknownType k ≠ VCS_SPECIES_TYPE_INTERFACIALVOLTAGE ∧
              s.PhaseID k = p then
            s.FormulaMatrix j k * s.soln k else 0) :=
    fun p _ => vcs_elabPhase_eq s p j hj
  rw [Finset.sum_congr rfl hL, Finset.sum_comm]
  have hg : (vcs_elab_run s).ga j = vcs_elab_row s j := by
    simp [vcs_elab_run, hj]
  rw [hg, vcs_elab_row_eq]
  refine Finset.sum_congr rfl fun k hk => ?_
  by_cases h1 : s.SpeciesUnknownType k = VCS_SPECIES_TYPE_INTERFACIALVOLTAGE
  · simp [h1]
  · have hmem : s.PhaseID k ∈ Finset.range s.NPhase :=
      Finset.mem_range.mpr (hph k (Finset.mem_range.mp hk))
    calc
      (∑ p ∈ Finset.range s.NPhase,
          if s.SpeciesUnknownType k ≠ VCS_SPECIES_TYPE_INTERFACIALVOLTAGE ∧
              s.PhaseID k = p then
            s.FormulaMatrix j k * s.soln k else 0)
          = ∑ p ∈ Finset.range s.NPhase,
              if s.PhaseID k = p then s.FormulaMatrix j k * s.soln k else 0 := by
            refine Finset.sum_congr rfl fun p _ => ?_
            simp [h1]
      _ = if s.SpeciesUnknownType k ≠ VCS_SPECIES_TYPE_INTERFACIALVOLTAGE then
            s.FormulaMatrix j k * s.soln k else 0 := by
            rw [Finset.sum_ite_eq (Finset.range s.NPhase) (s.PhaseID k)]
            simp [hmem, h1]

/-- Witness for C10 at a concrete two-phase instance. -/
theorem C10_phase_decomposition_witness :
    (0 < demoPhaseState.m_numElemConstraints ∧
      ∀ k < demoPhaseState.m_numSpeciesTot,
        demoPhaseState.PhaseID k < demoPhaseState.NPhase) ∧
    ∑ p ∈ Finset.range demoPhaseState.NPhase, vcs_elabPhase demoPhaseState p 0 =
      (vcs_elab_run demoPhaseState).ga 0 := by
  have h1 : 0 < demoPhaseState.m_numElemConstraints := by
    norm_num [demoPhaseState, baseState]
  have h2 : ∀ k < demoPhaseState.m_numSpeciesTot,
      demoPhaseState.PhaseID k < demoPhaseState.NPhase := by
    intro k _
    by_cases hk : k = 0 <;> simp [demoPhaseState, baseState, hk]
  exact ⟨⟨h1, h2⟩, C10_phase_decomposition demoPhaseState 0 h1 h2⟩

/-! ## C3: the Compliance Checker -/

theorem foldl_range_flag (p : ℕ → Prop) [DecidablePred p] (f : Bool → ℕ → Bool)
    (hf : ∀ m k, f m k = if p k then true else m) (n : ℕ) (b : Bool) :
    ((List.range n).foldl f b = true) ↔ (b = true ∨ ∃ k < n, p k) := by
  induction n with
  | zero => simp
  | succ n ih =>
    rw [List.range_succ, List.foldl_append, List.foldl_cons, List.foldl_nil, hf]
    by_cases hp : p n
    · simp only [hp, if_true, true_iff]
      exact Or.inr ⟨n, n.lt_succ_self, hp⟩
    · simp only [hp, if_false, ih]
      constructor
      · rintro (hb | ⟨k, hk, hpk⟩)
        · exact Or.inl hb
        · exact Or.inr ⟨k, hk.trans n.lt_succ_self, hpk⟩
      · rintro (hb | ⟨k, hk, hpk⟩)
        · exact Or.inl hb
        · refine Or.inr ⟨k, ?_, hpk⟩
          rcases Nat.lt_succ_iff_lt_or_eq.mp hk with h | h
          · exact h
          · exact absurd (h ▸ hpk) hp

theorem vcs_elabcheck_multisign_iff (s : VCSState) (i : ℕ) :
    vcs_elabcheck_multisign s i = true ↔ checker_multisignDecl s i := by
  have h := foldl_range_flag (fun k => s.FormulaMatrix i k < 0)
    (fun m k => if s.FormulaMatrix i k < 0 then true else m)
    (fun _ _ => rfl) s.m_numSpeciesTot false
  simpa [vcs_elabcheck_multisign, checker_multisignDecl] using h

theorem foldl_range_cond_max (p : ℕ → Prop) [DecidablePred p] (g : ℕ → ℚ)
    (c : ℚ) (n : ℕ) :
    (List.range n).foldl (fun sc k => if p k then max sc (g k) else sc) c
      = (Finset.range n).fold max c (fun k => if p k then g k else c) := by
  induction n with
  | zero => simp
  | succ n ih =>
    have hbase : c ≤ (Finset.range n).fold max c (fun k => if p k then g k else c) :=
      ((Finset.fold_max_le _).mp le_rfl).1
    rw [List.range_succ, List.foldl_append, List.foldl_cons, List.foldl_nil, ih,
      Finset.range_succ, Finset.fold_insert Finset.not_mem_range_self]
    by_cases hp : p n
    · simp only [hp, if_true]
      exact max_comm _ _
    · simp only [hp, if_false]
      exact (max_eq_right hbase).symm

theorem vcs_elabcheck_scale_eq (s : VCSState) (i : ℕ) :
    vcs_elabcheck_scale s i = checker_scaleDecl s i :=
  foldl_range_cond_max (fun k => s.FormulaMatrix i k ≠ 0)
    (fun k => |s.FormulaMatrix i k * s.soln k|)
    VCS_DELETE_MINORSPECIES_CUTOFF s.m_numSpeciesTot

theorem vcs_elabcheck_one_true_iff (s : VCSState) (i : ℕ) :
    vcs_elabcheck_one s i = some true ↔ checkerPassDecl s i := by
  unfold vcs_elabcheck_one checkerPassDecl
  rw [vcs_elabcheck_scale_eq]
  by_cases hd : |s.ga i - s.gai i| > |s.gai i| * (1/10^12)
  case neg =>
    rw [if_neg hd]
    exact iff_of_true rfl (Or.inl (not_lt.mp hd))
  case pos =>
    have hd' : ¬(|s.ga i - s.gai i| ≤ |s.gai i| * (1/10^12)) := not_le.mpr hd
    rw [if_pos hd]
    by_cases ha : s.m_elType i = VCS_ELEM_TYPE_CHARGENEUTRALITY ∧ ¬(s.gai i = 0)
    case pos =>
      have hne : ¬(s.gai i = 0 ∨ s.m_elType i = VCS_ELEM_TYPE_ELECTRONCHARGE) := by
        rintro (h0 | hEC)
        · exact ha.2 h0
        · rw [ha.1] at hEC
          norm_num [VCS_ELEM_TYPE_CHARGENEUTRALITY,
            VCS_ELEM_TYPE_ELECTRONCHARGE] at hEC
      rw [if_pos ha]
      refine iff_of_false (by simp) ?_
      rintro (h | ⟨hor, _⟩)
      · exact hd' h
      · exact hne hor
    case neg =>
      rw [if_neg ha]
      by_cases hb : s.gai i = 0 ∨ s.m_elType i = VCS_ELEM_TYPE_ELECTRONCHARGE
      case neg =>
        rw [if_neg hb]
        refine iff_of_false (by simp) ?_
        rintro (h | ⟨hor, _⟩)
        · exact hd' h
        · exact hb hor
      case pos =>
        rw [if_pos hb]
        by_cases hm : vcs_elabcheck_multisign s i = true
        case pos =>
          have hm' : checker_multisignDecl s i :=
            (vcs_elabcheck_multisign_iff s i).mp hm
          rw [if_pos hm]
          by_cases hs : |s.ga i - s.gai i| > (1/10^11) * checker_scaleDecl s i
          case pos =>
            rw [if_pos hs]
            refine iff_of_false (by simp) ?_
            rintro (h | ⟨_, ⟨_, hle⟩ | ⟨hnm, _⟩⟩)
            · exact hd' h
            · exact absurd hle (not_le.mpr hs)
            · exact hnm hm'
          case neg =>
            rw [if_neg hs]
            exact iff_of_true rfl (Or.inr ⟨hb, Or.inl ⟨hm', not_lt.mp hs⟩⟩)
        case neg =>
          have hm' : ¬ checker_multisignDecl s i := fun h =>
            hm ((vcs_elabcheck_multisign_iff s i).mpr h)
          rw [if_neg hm]
          by_cases hs : |s.ga i - s.gai i| > VCS_DELETE_MINORSPECIES_CUTOFF
          case pos =>
            rw [if_pos hs]
            refine iff_of_false (by simp) ?_
            rintro (h | ⟨_, ⟨hmD, _⟩ | ⟨_, hle⟩⟩)
            · exact hd' h
            · exact hm' hmD
            · exact absurd hle (not_le.mpr hs)
          case neg =>
            rw [if_neg hs]
            exact iff_of_true rfl (Or.inr ⟨hb, Or.inr ⟨hm', not_lt.mp hs⟩⟩)

theorem vcs_elabcheck_from_true_iff (s : VCSState) :
    ∀ (rem start : ℕ) (b : Bool), vcs_elabcheck_from s start rem = some b →
      (b = true ↔ ∀ i, start ≤ i → i < start + rem →
        vcs_elabcheck_one s i = some true)
  | 0, start, b => by
    intro h
    simp only [vcs_elabcheck_from] at h
    cases h
    simp only [true_iff]
    intro i h1 h2
    omega
  | rem + 1, start, b => by
    intro h
    simp only [vcs_elabcheck_from] at h
    rcases hone : vcs_elabcheck_one s start with _ | bv
    · rw [hone] at h
      cases h
    · rcases bv with _ | _
      · rw [hone] at h
        cases h
        constructor
        · intro hb
          cases hb
        · intro hall
          have := hall start le_rfl (by omega)
          rw [hone] at this
          cases this
      · rw [hone] at h
        have ih := vcs_elabcheck_from_true_iff s rem (start + 1) b h
        rw [ih]
        constructor
        · intro hall i h1 h2
          rcases Nat.lt_or_ge i (start + 1) with hlt | hge
          · have : i = start := by omega
            rw [this]
            exact hone
          · exact hall i hge (by omega)
        · intro hall i h1 h2
          exact hall i (by omega) (by omega)

/-- C3 (amended): `vcs_elabcheck`, when it returns without an assertion
abort, returns success exactly when every in-scope constraint meets the
declarative criterion `checkerPassDecl`: a discrepancy within `1e-12` of
the target magnitude always passes; otherwise a zero-target or
electron-charge constraint passes according to the multisign test — but
the row is classified as multisign by scanning ALL species (interfacial
voltage ones included) for a negative coefficient, and the scale maximum
likewise runs over all species — and every other constraint fails. -/
theorem C3_checker_characterization (s : VCSState) (ib : Bool) (b : Bool)
    (hb : vcs_elabcheck s ib = some b) :
    b = true ↔
      ∀ i < (if ib then s.m_numElemConstraints else s.m_numComponents),
        checkerPassDecl s i := by
  have h := vcs_elabcheck_from_true_iff s
    (if ib then s.m_numElemConstraints else s.m_numComponents) 0 b hb
  rw [h]
  constructor
  · intro hall i hi
    exact (vcs_elabcheck_one_true_iff s i).mp (hall i (Nat.zero_le i) (by omega))
  · intro hall i _ hi
    exact (vcs_elabcheck_one_true_iff s i).mpr (hall i (by omega))

theorem checkerCex_eval : vcs_elabcheck checkerCexState true = some true := by
  norm_num [vcs_elabcheck, vcs_elabcheck_from, vcs_elabcheck_one,
    vcs_elabcheck_multisign, vcs_elabcheck_scale, checkerCexState, baseState,
    VCS_DELETE_MINORSPECIES_CUTOFF, VCS_ELEM_TYPE_CHARGENEUTRALITY,
    VCS_ELEM_TYPE_ELECTRONCHARGE, VCS_ELEM_TYPE_NORMAL, List.range_succ,
    sup_eq_max, max_def, abs_of_nonneg, abs_of_nonpos]

/-- C3 counterexample: at `checkerCexState`, constraint 0 is in scope
with a discrepancy exceeding `1e-12` of the target magnitude and a zero
target; among non-voltage species its row is single-sign (all
coefficients nonnegative), so by the claim it must pass only when the
discrepancy is at most the minor-species cutoff — which it exceeds — yet
the code's checker accepts the state, because the voltage species'
negative coefficient makes the code classify the row as multisign and
the voltage species' large mole number inflates the scale. -/
theorem C3_counterexample :
    vcs_elabcheck checkerCexState true = some true ∧
    |checkerCexState.ga 0 - checkerCexState.gai 0| >
      |checkerCexState.gai 0| * (1/10^12) ∧
    checkerCexState.gai 0 = 0 ∧
    (∀ k < checkerCexState.m_numSpeciesTot,
      checkerCexState.SpeciesUnknownType k ≠
        VCS_SPECIES_TYPE_INTERFACIALVOLTAGE →
      0 ≤ checkerCexState.FormulaMatrix 0 k) ∧
    ¬(|checkerCexState.ga 0 - checkerCexState.gai 0| ≤
        VCS_DELETE_MINORSPECIES_CUTOFF) := by
  refine ⟨checkerCex_eval, ?_, ?_, ?_, ?_⟩
  · norm_num [checkerCexState, baseState]
  · norm_num [checkerCexState, baseState]
  · intro k hk hv
    have hk2 : k < 2 := by
      simpa [checkerCexState, baseState] using hk
    interval_cases k
    · norm_num [checkerCexState, baseState]
    · exfalso
      apply hv
      norm_num [checkerCexState, baseState]
  · norm_num [checkerCexState, baseState, VCS_DELETE_MINORSPECIES_CUTOFF,
      abs_of_nonneg]

/-- Witness for the amended C3 at a concrete instance. -/
theorem C3_checker_witness :
    vcs_elabcheck checkerCexState true = some true ∧
    (true = true ↔
      ∀ i < (if true then checkerCexState.m_numElemConstraints
        else checkerCexState.m_numComponents),
        checkerPassDecl checkerCexState i) :=
  ⟨checkerCex_eval,
    C3_checker_characterization checkerCexState true true checkerCex_eval⟩

/-! ## C2: the Position-Switch operator -/

/-- C2: at `switchCexState`, switching constraint positions 0 and 1
swaps the target-abundance entries correctly, but the phase object's
local-to-global constraint map collapses: the entry that held position 0
still holds 0 (the two consecutive `if`s at vcs_elem_rearrange.cpp lines
231-236 undo each other), and the entry that held position 1 now also
holds 0, so the map no longer mirrors the permutation applied to every
other constraint-indexed array. -/
theorem C2_switch_codebug :
    (vcs_switch_elem_pos switchCexState 0 1).ElGlobalIndex 0 0 = 0 ∧
    (vcs_switch_elem_pos switchCexState 0 1).ElGlobalIndex 0 1 = 0 ∧
    switchCexState.ElGlobalIndex 0 0 = 0 ∧
    switchCexState.ElGlobalIndex 0 1 = 1 ∧
    0 < switchCexState.NPhase ∧
    1 < switchCexState.phNElemConstraints 0 ∧
    (vcs_switch_elem_pos switchCexState 0 1).gai 0 = 20 ∧
    (vcs_switch_elem_pos switchCexState 0 1).gai 1 = 10 := by
  refine ⟨by decide, by decide, by decide, by decide, by decide, by decide, ?_, ?_⟩
  · norm_num [vcs_switch_elem_pos, swapFn, switchCexState, baseState]
  · norm_num [vcs_switch_elem_pos, swapFn, switchCexState, baseState]

/-! ## C1: the Corrector's status contract -/

/-- C1: at `elcorrCexState` the Corrector returns status 1, whose
documented meaning (vcs_elem.cpp lines 185-186) is "the solution changed
significantly; the element abundances are now good" — yet the mole
numbers it returns are identical to the input and the final
compliance check still fails. -/
theorem C1_status_codebug :
    (vcs_elcorr elcorrCexState).map Prod.fst = some (ElcorrRet.status 1) ∧
    (vcs_elcorr elcorrCexState).map (fun r => (r.2.soln 0, r.2.soln 1)) =
      some (elcorrCexState.soln 0, elcorrCexState.soln 1) ∧
    (vcs_elcorr elcorrCexState).map (fun r => vcs_elabcheck r.2 true) =
      some (some false) := by
  refine ⟨?_, ?_, ?_⟩ <;>
    norm_num [vcs_elcorr, elcorr_stage1, elcorr_stage2, elcorr_stage3, elcorr_stage4,
      elcorr_stage5, elcorr_stage6, elcorr1_row, elcorr1_multisign, elcorr1_numNonZero,
      elcorr1_singleStep, elcorr1_numCompNonZero, elcorr1_compID, elcorr1_compStep,
      elcorr2_row, elcorr2_spStep, elcorr3_retn, elcorr3_x, elcorr3_par0, elcorr3_apply,
      elcorr3_applyStep, elcorr4_spec, elcorr4_dirGood, elcorr4_dirStep, elcorr4_xx,
      elcorr5_row, elcorr5_inner, elcorr5_apply, elcorr6_row, elcorr6_inner,
      elcorr6_useZeroed, vcs_elab_run, vcs_elab_row, vcs_tmoles, vcs_tmoles_calc,
      vcs_reinsert_deleted, vcsUtil_mlequ, detQ, updateColumnQ,
      vcs_elabcheck, vcs_elabcheck_from, vcs_elabcheck_one, vcs_elabcheck_multisign,
      vcs_elabcheck_scale, elcorrCexState, baseState,
      VCS_DELETE_MINORSPECIES_CUTOFF, VCS_ELEM_TYPE_CHARGENEUTRALITY,
      VCS_ELEM_TYPE_ELECTRONCHARGE, VCS_ELEM_TYPE_ABSPOS, VCS_ELEM_TYPE_NORMAL,
      VCS_SPECIES_TYPE_INTERFACIALVOLTAGE,
      List.range_succ, Function.update, sup_eq_max, max_def, abs_of_nonneg,
      abs_of_nonpos]

/-! ## C4: the nonnegativity invariant -/

/-- C4 counterexample: at `nonnegCexState` every mole number is
nonnegative on entry (species 0 holds 2 moles), yet the Corrector
returns normally with species 0 at `-1e-4 < 0`: the degenerate-row
stage writes `gai/coefficient = -1` for the (legitimately
negative-target) constraint, and the stage-3 shrink multiplies it by
`1e-4` instead of clamping it to zero. -/
theorem C4_counterexample :
    (∀ k < nonnegCexState.m_numSpeciesTot, 0 ≤ nonnegCexState.soln k) ∧
    (vcs_elcorr nonnegCexState).map (fun r => r.2.soln 0) =
      some (-(1/10000)) := by
  constructor
  · intro k hk
    have hk1 : k < 1 := by simpa [nonnegCexState, baseState] using hk
    interval_cases k
    norm_num [nonnegCexState, baseState]
  · norm_num [vcs_elcorr, elcorr_stage1, elcorr_stage2, elcorr_stage3, elcorr_stage4,
      elcorr_stage5, elcorr_stage6, elcorr1_row, elcorr1_multisign, elcorr1_numNonZero,
      elcorr1_singleStep, elcorr1_numCompNonZero, elcorr1_compID, elcorr1_compStep,
      elcorr2_row, elcorr2_spStep, elcorr3_retn, elcorr3_x, elcorr3_par0, elcorr3_apply,
      elcorr3_applyStep, elcorr4_spec, elcorr4_dirGood, elcorr4_dirStep, elcorr4_xx,
      elcorr5_row, elcorr5_inner, elcorr5_apply, elcorr6_row, elcorr6_inner,
      elcorr6_useZeroed, vcs_elab_run, vcs_elab_row, vcs_tmoles, vcs_tmoles_calc,
      vcs_reinsert_deleted, vcsUtil_mlequ, detQ, updateColumnQ,
      vcs_elabcheck, vcs_elabcheck_from, vcs_elabcheck_one, vcs_elabcheck_multisign,
      vcs_elabcheck_scale, nonnegCexState, baseState,
      VCS_DELETE_MINORSPECIES_CUTOFF, VCS_ELEM_TYPE_CHARGENEUTRALITY,
      VCS_ELEM_TYPE_ELECTRONCHARGE, VCS_ELEM_TYPE_ABSPOS, VCS_ELEM_TYPE_NORMAL,
      VCS_SPECIES_TYPE_INTERFACIALVOLTAGE,
      List.range_succ, Function.update, sup_eq_max, max_def, abs_of_nonneg,
      abs_of_nonpos]

/-! ## C8: monotonic improvement of squared discrepancies -/

/-- C8 counterexample: at `elcorrL2CexState` the stage-3 linear solve
succeeds (the 1x1 component matrix is `[1]`), the Corrector returns
normally, but the sum over all `E = 2` constraints of squared
discrepancies rises from `(1-2)^2 + (1-0)^2 = 2` before the call to
`(2-2)^2 + (2-0)^2 = 4` after it. -/
theorem C8_counterexample :
    (vcs_elcorr elcorrL2CexState).map
        (fun r => (r.1, (r.2.ga 0 - r.2.gai 0)^2 + (r.2.ga 1 - r.2.gai 1)^2)) =
      some (ElcorrRet.status 1, 4) ∧
    (elcorrL2CexState.ga 0 - elcorrL2CexState.gai 0)^2 +
      (elcorrL2CexState.ga 1 - elcorrL2CexState.gai 1)^2 = 2 ∧
    (elcorr3_x (elcorr_stage2 (elcorr_stage1 elcorrL2CexState))).isSome = true := by
  refine ⟨?_, by norm_num [elcorrL2CexState, baseState], ?_⟩ <;>
    norm_num [vcs_elcorr, elcorr_stage1, elcorr_stage2, elcorr_stage3, elcorr_stage4,
      elcorr_stage5, elcorr_stage6, elcorr1_row, elcorr1_multisign, elcorr1_numNonZero,
      elcorr1_singleStep, elcorr1_numCompNonZero, elcorr1_compID, elcorr1_compStep,
      elcorr2_row, elcorr2_spStep, elcorr3_retn, elcorr3_x, elcorr3_par0, elcorr3_apply,
      elcorr3_applyStep, elcorr4_spec, elcorr4_dirGood, elcorr4_dirStep, elcorr4_xx,
      elcorr5_row, elcorr5_inner, elcorr5_apply, elcorr6_row, elcorr6_inner,
      elcorr6_useZeroed, vcs_elab_run, vcs_elab_row, vcs_tmoles, vcs_tmoles_calc,
      vcs_reinsert_deleted, vcsUtil_mlequ, detQ, updateColumnQ,
      vcs_elabcheck, vcs_elabcheck_from, vcs_elabcheck_one, vcs_elabcheck_multisign,
      vcs_elabcheck_scale, elcorrL2CexState, baseState,
      VCS_DELETE_MINORSPECIES_CUTOFF, VCS_ELEM_TYPE_CHARGENEUTRALITY,
      VCS_ELEM_TYPE_ELECTRONCHARGE, VCS_ELEM_TYPE_ABSPOS, VCS_ELEM_TYPE_NORMAL,
      VCS_SPECIES_TYPE_INTERFACIALVOLTAGE,
      List.range_succ, Function.update, sup_eq_max, max_def, abs_of_nonneg,
      abs_of_nonpos]

/-! ## Frame infrastructure: what the Corrector never touches -/

theorem ElemMetaEq_refl (s : VCSState) : ElemMetaEq s s :=
  ⟨rfl, rfl, rfl, rfl, rfl, rfl, rfl, rfl, rfl, rfl, rfl, rfl, rfl, rfl, rfl⟩

theorem ElemMetaEq_trans {s t u : VCSState} (h1 : ElemMetaEq s t)
    (h2 : ElemMetaEq t u) : ElemMetaEq s u := by
  obtain ⟨a1, a2, a3, a4, a5, a6, a7, a8, a9, a10, a11, a12, a13, a14, a15⟩ := h1
  obtain ⟨b1, b2, b3, b4, b5, b6, b7, b8, b9, b10, b11, b12, b13, b14, b15⟩ := h2
  exact ⟨b1.trans a1, b2.trans a2, b3.trans a3, b4.trans a4, b5.trans a5,
    b6.trans a6, b7.trans a7, b8.trans a8, b9.trans a9, b10.trans a10,
    b11.trans a11, b12.trans a12, b13.trans a13, b14.trans a14, b15.trans a15⟩

theorem foldl_ElemMetaEq {α : Type} (proj : α → VCSState) (f : α → ℕ → α)
    (l : List ℕ) (a : α)
    (hf : ∀ x n, n ∈ l → ElemMetaEq (proj x) (proj (f x n))) :
    ElemMetaEq (proj a) (proj (l.foldl f a)) := by
  refine foldl_list_invariant (fun x => ElemMetaEq (proj a) (proj x)) f l a
    (ElemMetaEq_refl _) ?_
  intro x n hn hx
  exact ElemMetaEq_trans hx (hf x n hn)

theorem vcs_elab_step_meta (s : VCSState) : ElemMetaEq s (vcs_elab_run s) :=
  ElemMetaEq_refl s

theorem vcs_tmoles_meta (s : VCSState) : ElemMetaEq s (vcs_tmoles s) :=
  ElemMetaEq_refl s

theorem elcorr1_singleStep_meta (i : ℕ) (st : VCSState × Bool) (k : ℕ) :
    ElemMetaEq st.1 (elcorr1_singleStep i st k).1 := by
  unfold elcorr1_singleStep
  try dsimp only
  split_ifs <;> simp [ElemMetaEq]

theorem elcorr1_compStep_meta (i cid : ℕ) (st : ℚ × VCSState × Bool) (k : ℕ) :
    ElemMetaEq st.2.1 (elcorr1_compStep i cid st k).2.1 := by
  unfold elcorr1_compStep
  try dsimp only
  simp [ElemMetaEq]

theorem elcorr1_row_meta (st : VCSState × Bool) (i : ℕ) :
    ElemMetaEq st.1 (elcorr1_row st i).1 := by
  unfold elcorr1_row
  dsimp only
  split_ifs <;>
    first
      | exact ElemMetaEq_refl _
      | exact foldl_ElemMetaEq Prod.fst (elcorr1_singleStep i) _ st
          (fun x n _ => elcorr1_singleStep_meta i x n)
      | exact foldl_ElemMetaEq (fun r => r.2.1)
          (elcorr1_compStep i (elcorr1_compID st.1 i)) _ (st.1.gai i, st.1, st.2)
          (fun x n _ => elcorr1_compStep_meta i _ x n)

theorem elcorr_stage1_meta (s : VCSState) : ElemMetaEq s (elcorr_stage1 s) := by
  unfold elcorr_stage1
  dsimp only
  have h : ElemMetaEq s ((List.range s.m_numElemConstraints).foldl
      elcorr1_row (s, false)).1 :=
    foldl_ElemMetaEq Prod.fst elcorr1_row _ (s, false)
      (fun x n _ => elcorr1_row_meta x n)
  split_ifs
  · exact ElemMetaEq_trans h (vcs_elab_step_meta _)
  · exact h

theorem elcorr2_spStep_meta (i : ℕ) (st : VCSState × Bool) (k : ℕ) :
    ElemMetaEq st.1 (elcorr2_spStep i st k).1 := by
  unfold elcorr2_spStep
  try dsimp only
  split_ifs <;> simp [ElemMetaEq]

theorem elcorr2_row_meta (st : VCSState × Bool) (i : ℕ) :
    ElemMetaEq st.1 (elcorr2_row st i).1 := by
  unfold elcorr2_row
  try dsimp only
  split_ifs
  · exact foldl_ElemMetaEq Prod.fst (elcorr2_spStep i) _ st
      (fun x n _ => elcorr2_spStep_meta i x n)
  · exact ElemMetaEq_refl _

theorem elcorr_stage2_meta (s : VCSState) : ElemMetaEq s (elcorr_stage2 s) := by
  unfold elcorr_stage2
  dsimp only
  have h : ElemMetaEq s ((List.range s.m_numElemConstraints).foldl
      elcorr2_row (s, false)).1 :=
    foldl_ElemMetaEq Prod.fst elcorr2_row _ (s, false)
      (fun x n _ => elcorr2_row_meta x n)
  split_ifs
  · exact ElemMetaEq_trans h (vcs_elab_step_meta _)
  · exact h

theorem elcorr3_applyStep_meta (x : ℕ → ℚ) (par : ℚ) (s : VCSState) (i : ℕ) :
    ElemMetaEq s (elcorr3_applyStep x par s i) := by
  unfold elcorr3_applyStep
  try dsimp only
  split_ifs <;> simp [ElemMetaEq]

theorem elcorr3_apply_meta (s : VCSState) (x : ℕ → ℚ) (par : ℚ) :
    ElemMetaEq s (elcorr3_apply s x par) :=
  foldl_ElemMetaEq id (elcorr3_applyStep x par) _ s
    (fun t n _ => elcorr3_applyStep_meta x par t n)

theorem elcorr_stage3_meta (s : VCSState) (retn : ℕ) (t : VCSState)
    (h : elcorr_stage3 s = some (retn, t)) : ElemMetaEq s t := by
  unfold elcorr_stage3 at h
  rcases hx : elcorr3_x s with _ | x
  · rw [hx] at h
    cases h
  · rw [hx] at h
    simp only at h
    split_ifs at h <;>
      · cases h
        exact ElemMetaEq_trans (elcorr3_apply_meta s x _)
          (ElemMetaEq_trans (vcs_elab_step_meta _) (vcs_tmoles_meta _))

theorem elcorr4_spec_meta (st : VCSState × Bool) (k : ℕ) :
    ElemMetaEq st.1 (elcorr4_spec st k).1 := by
  unfold elcorr4_spec
  try dsimp only
  split_ifs <;> simp [ElemMetaEq, vcs_reinsert_deleted, vcs_elab_run]

theorem elcorr_stage4_meta (retn : ℕ) (s : VCSState) :
    ElemMetaEq s (elcorr_stage4 retn s).1 := by
  unfold elcorr_stage4
  try dsimp only
  split_ifs
  · exact foldl_ElemMetaEq Prod.fst elcorr4_spec _ (s, false)
      (fun x n _ => elcorr4_spec_meta x n)
  · exact ElemMetaEq_refl _

theorem elcorr5_inner_meta (i : ℕ) (st : VCSState × Bool) (k : ℕ) :
    ElemMetaEq st.1 (elcorr5_inner i st k).1 := by
  unfold elcorr5_inner elcorr5_apply
  try dsimp only
  split_ifs <;> simp [ElemMetaEq, vcs_elab_run]

theorem elcorr5_row_meta (s : VCSState) (i : ℕ) :
    ElemMetaEq s (elcorr5_row s i) := by
  unfold elcorr5_row
  try dsimp only
  split_ifs
  · exact foldl_ElemMetaEq Prod.fst (elcorr5_inner i) _ (s, false)
      (fun x n _ => elcorr5_inner_meta i x n)
  · exact ElemMetaEq_refl _

theorem elcorr_stage5_meta (s : VCSState) : ElemMetaEq s (elcorr_stage5 s) :=
  foldl_ElemMetaEq id elcorr5_row _ s (fun t n _ => elcorr5_row_meta t n)

theorem elcorr6_inner_meta (i : ℕ) (dev : ℚ) (uz : Bool) (st : VCSState × Bool)
    (k : ℕ) : ElemMetaEq st.1 (elcorr6_inner i dev uz st k).1 := by
  unfold elcorr6_inner
  try dsimp only
  split_ifs <;> simp [ElemMetaEq, vcs_elab_run]

theorem elcorr6_row_meta (s : VCSState) (i : ℕ) :
    ElemMetaEq s (elcorr6_row s i) := by
  unfold elcorr6_row
  try dsimp only
  split_ifs
  · exact foldl_ElemMetaEq Prod.fst (elcorr6_inner i _ _) _ (s, false)
      (fun x n _ => elcorr6_inner_meta i _ _ x n)
  · exact ElemMetaEq_refl _

theorem elcorr_stage6_meta (s : VCSState) : ElemMetaEq s (elcorr_stage6 s) :=
  foldl_ElemMetaEq id elcorr6_row _ s (fun t n _ => elcorr6_row_meta t n)

theorem vcs_elcorr_meta (s : VCSState) (r : ElcorrRet) (t : VCSState)
    (h : vcs_elcorr s = some (r, t)) : ElemMetaEq s t := by
  unfold vcs_elcorr at h
  dsimp only at h
  have m2 : ElemMetaEq s (elcorr_stage2 (elcorr_stage1 s)) :=
    ElemMetaEq_trans (elcorr_stage1_meta s) (elcorr_stage2_meta _)
  rcases h3 : elcorr_stage3 (elcorr_stage2 (elcorr_stage1 s)) with _ | ⟨retn, s3⟩
  · rw [h3] at h
    simp only at h
    cases h
    exact m2
  · rw [h3] at h
    simp only at h
    have m3 : ElemMetaEq s s3 :=
      ElemMetaEq_trans m2 (elcorr_stage3_meta _ retn s3 h3)
    have m4 : ElemMetaEq s (elcorr_stage4 retn s3).1 :=
      ElemMetaEq_trans m3 (elcorr_stage4_meta retn s3)
    split_ifs at h
    · cases h
      exact ElemMetaEq_trans m4 (vcs_tmoles_meta _)
    · rcases hc : vcs_elabcheck (elcorr_stage4 retn s3).1 false with _ | bv
      · rw [hc] at h
        cases h
      · rw [hc] at h
        rcases bv with _ | _
        · have m5 : ElemMetaEq s (elcorr_stage5 (elcorr_stage4 retn s3).1) :=
            ElemMetaEq_trans m4 (elcorr_stage5_meta _)
          rcases hc2 : vcs_elabcheck (elcorr_stage5 (elcorr_stage4 retn s3).1) true
            with _ | bv2
          · rw [hc2] at h
            cases h
          · rw [hc2] at h
            rcases bv2 with _ | _
            · have m6 : ElemMetaEq s
                  (elcorr_stage6 (elcorr_stage5 (elcorr_stage4 retn s3).1)) :=
                ElemMetaEq_trans m5 (elcorr_stage6_meta _)
              rcases hc3 : vcs_elabcheck
                  (elcorr_stage6 (elcorr_stage5 (elcorr_stage4 retn s3).1)) true
                with _ | bv3
              · rw [hc3] at h
                cases h
              · rw [hc3] at h
                rcases bv3 with _ | _
                · cases h
                  exact ElemMetaEq_trans m6 (vcs_tmoles_meta _)
                · cases h
                  exact ElemMetaEq_trans m6 (vcs_tmoles_meta _)
            · cases h
              exact ElemMetaEq_trans m5 (vcs_tmoles_meta _)
        · cases h
          exact ElemMetaEq_trans m4 (vcs_tmoles_meta _)

theorem swapFn_eq_swap {α : Type} (f : ℕ → α) (i j k : ℕ) :
    swapFn f i j k = f (Equiv.swap i j k) := by
  unfold swapFn
  rw [Equiv.swap_apply_def]
  split_ifs <;> rfl

/-- C9: the Corrector never modifies the target abundance vector, the
Formula Matrix, the constraint type tags, active flags or names (nor any
other constraint metadata listed in `ElemMetaEq`); the Checker is a pure
function of the state (it is embedded as one, returning only a
verdict); and the Position-Switch operator changes positions only, not
values: every constraint-indexed array of the switched state reads the
original array through the transposition `Equiv.swap i j`. -/
theorem C9_frame_effects (s : VCSState) (i j : ℕ) :
    ((vcs_elcorr s).elim True fun p => ElemMetaEq s p.2) ∧
    (∀ k, (vcs_switch_elem_pos s i j).gai k = s.gai (Equiv.swap i j k)) ∧
    (∀ k, (vcs_switch_elem_pos s i j).ga k = s.ga (Equiv.swap i j k)) ∧
    (∀ k, (vcs_switch_elem_pos s i j).m_elType k = s.m_elType (Equiv.swap i j k)) ∧
    (∀ k, (vcs_switch_elem_pos s i j).ElActive k = s.ElActive (Equiv.swap i j k)) ∧
    (∀ k, (vcs_switch_elem_pos s i j).ElName k = s.ElName (Equiv.swap i j k)) ∧
    (∀ k, (vcs_switch_elem_pos s i j).IndEl k = s.IndEl (Equiv.swap i j k)) ∧
    (∀ r k, k < s.m_numSpeciesTot →
      (vcs_switch_elem_pos s i j).FormulaMatrix r k =
        s.FormulaMatrix (Equiv.swap i j r) k) := by
  refine ⟨?_, ?_⟩
  · rcases h : vcs_elcorr s with _ | ⟨r, t⟩
    · exact trivial
    · exact vcs_elcorr_meta s r t h
  · by_cases hij : i = j
    · subst hij
      simp [vcs_switch_elem_pos, Equiv.swap_self]
    · simp only [vcs_switch_elem_pos, hij, if_false]
      refine ⟨?_, ?_, ?_, ?_, ?_, ?_, ?_⟩
      · exact fun k => swapFn_eq_swap s.gai i j k
      · exact fun k => swapFn_eq_swap s.ga i j k
      · exact fun k => swapFn_eq_swap s.m_elType i j k
      · exact fun k => swapFn_eq_swap s.ElActive i j k
      · exact fun k => swapFn_eq_swap s.ElName i j k
      · exact fun k => swapFn_eq_swap s.IndEl i j k
      · intro r k hk
        simp only [fmAfterSwitch, hk, if_pos]
        exact swapFn_eq_swap (fun r' => s.FormulaMatrix r' k) i j r

/-! ## C4: nonnegativity preservation lemmas -/

theorem nonneg_update (f : ℕ → ℚ) (hf : ∀ m, 0 ≤ f m) (k : ℕ) (v : ℚ)
    (hv : 0 ≤ v) : ∀ m, 0 ≤ Function.update f k v m := by
  intro m
  rcases eq_or_ne m k with rfl | hm
  · rw [Function.update_same]
    exact hv
  · rw [Function.update_noteq hm]
    exact hf m

theorem elcorr1_singleStep_nonneg (i : ℕ) (st : VCSState × Bool) (k : ℕ)
    (h : NonnegInv st.1) : NonnegInv (elcorr1_singleStep i st k).1 := by
  obtain ⟨hs, hg, hr⟩ := h
  unfold elcorr1_singleStep
  dsimp only
  by_cases hc : st.1.SpeciesUnknownType k ≠ VCS_SPECIES_TYPE_INTERFACIALVOLTAGE ∧
      st.1.FormulaMatrix i k > 0
  · rw [if_pos hc]
    exact ⟨nonneg_update _ hs _ _ (div_nonneg (hg i) (le_of_lt hc.2)), hg, hr⟩
  · rw [if_neg hc]
    exact ⟨hs, hg, hr⟩

theorem elcorr1_compStep_nonneg (i cid : ℕ) (st : ℚ × VCSState × Bool) (k : ℕ)
    (h : NonnegInv st.2.1) : NonnegInv (elcorr1_compStep i cid st k).2.1 := by
  unfold elcorr1_compStep
  exact ⟨nonneg_update _ h.1 _ _ (le_max_left 0 _), h.2.1, h.2.2⟩

theorem foldl_singleStep_nonneg (i : ℕ) (l : List ℕ) (st : VCSState × Bool)
    (h : NonnegInv st.1) :
    NonnegInv (List.foldl (elcorr1_singleStep i) st l).1 := by
  induction l generalizing st with
  | nil => exact h
  | cons m t ih => exact ih _ (elcorr1_singleStep_nonneg i st m h)

theorem foldl_compStep_nonneg (i cid : ℕ) (l : List ℕ) (a : ℚ × VCSState × Bool)
    (h : NonnegInv a.2.1) :
    NonnegInv (List.foldl (elcorr1_compStep i cid) a l).2.1 := by
  induction l generalizing a with
  | nil => exact h
  | cons m t ih => exact ih _ (elcorr1_compStep_nonneg i cid a m h)

theorem elcorr1_row_nonneg (st : VCSState × Bool) (i : ℕ)
    (h : NonnegInv st.1) : NonnegInv (elcorr1_row st i).1 := by
  unfold elcorr1_row
  dsimp only
  by_cases hm : ¬ elcorr1_multisign st.1 i = true
  · rw [if_pos hm]
    by_cases hn : elcorr1_numNonZero st.1 i < 2
    · rw [if_pos hn]
      exact foldl_singleStep_nonneg i _ st h
    · rw [if_neg hn]
      by_cases hc : elcorr1_numCompNonZero st.1 i = 1
      · rw [if_pos hc]
        dsimp only
        exact foldl_compStep_nonneg i _ _ _ h
      · rw [if_neg hc]
        exact h
  · rw [if_neg hm]
    exact h

theorem foldl_row1_nonneg (l : List ℕ) (st : VCSState × Bool)
    (h : NonnegInv st.1) : NonnegInv (List.foldl elcorr1_row st l).1 := by
  induction l generalizing st with
  | nil => exact h
  | cons m t ih => exact ih _ (elcorr1_row_nonneg st m h)

theorem elcorr_stage1_nonneg (s : VCSState) (h : NonnegInv s) :
    NonnegInv (elcorr_stage1 s) := by
  unfold elcorr_stage1
  dsimp only
  have hf : NonnegInv ((List.range s.m_numElemConstraints).foldl
      elcorr1_row (s, false)).1 := foldl_row1_nonneg _ (s, false) h
  split_ifs
  · exact hf
  · exact hf

theorem elcorr2_spStep_nonneg (i : ℕ) (st : VCSState × Bool) (k : ℕ)
    (h : NonnegInv st.1) : NonnegInv (elcorr2_spStep i st k).1 := by
  obtain ⟨hs, hg, hr⟩ := h
  unfold elcorr2_spStep
  dsimp only
  by_cases h1 : st.1.SpeciesUnknownType k ≠ VCS_SPECIES_TYPE_INTERFACIALVOLTAGE
  · rw [if_pos h1]
    by_cases h2 : st.1.FormulaMatrix i k > 0
    · rw [if_pos h2]
      by_cases h3 : st.1.soln k > st.1.gai i / st.1.FormulaMatrix i k
      · rw [if_pos h3]
        by_cases h4 : st.1.gai i / st.1.FormulaMatrix i k <
            VCS_DELETE_MINORSPECIES_CUTOFF
        · rw [if_pos h4]
          exact ⟨nonneg_update _ hs _ _ le_rfl, hg, hr⟩
        · rw [if_neg h4]
          exact ⟨nonneg_update _ hs _ _ (div_nonneg (hg i) (le_of_lt h2)),
            hg, hr⟩
      · rw [if_neg h3]
        exact ⟨hs, hg, hr⟩
    · rw [if_neg h2]
      exact ⟨hs, hg, hr⟩
  · rw [if_neg h1]
    exact ⟨hs, hg, hr⟩

theorem foldl_spStep2_nonneg (i : ℕ) (l : List ℕ) (st : VCSState × Bool)
    (h : NonnegInv st.1) :
    NonnegInv (List.foldl (elcorr2_spStep i) st l).1 := by
  induction l generalizing st with
  | nil => exact h
  | cons m t ih => exact ih _ (elcorr2_spStep_nonneg i st m h)

theorem elcorr2_row_nonneg (st : VCSState × Bool) (i : ℕ)
    (h : NonnegInv st.1) : NonnegInv (elcorr2_row st i).1 := by
  unfold elcorr2_row
  try dsimp only
  by_cases h1 : st.1.m_elType i = VCS_ELEM_TYPE_ABSPOS
  · rw [if_pos h1]
    exact foldl_spStep2_nonneg i _ st h
  · rw [if_neg h1]
    exact h

theorem foldl_row2_nonneg (l : List ℕ) (st : VCSState × Bool)
    (h : NonnegInv st.1) : NonnegInv (List.foldl elcorr2_row st l).1 := by
  induction l generalizing st with
  | nil => exact h
  | cons m t ih => exact ih _ (elcorr2_row_nonneg st m h)

theorem elcorr_stage2_nonneg (s : VCSState) (h : NonnegInv s) :
    NonnegInv (elcorr_stage2 s) := by
  unfold elcorr_stage2
  dsimp only
  have hf : NonnegInv ((List.range s.m_numElemConstraints).foldl
      elcorr2_row (s, false)).1 := foldl_row2_nonneg _ (s, false) h
  split_ifs
  · exact hf
  · exact hf

theorem elcorr3_applyStep_nonneg (x : ℕ → ℚ) (par : ℚ) (s : VCSState) (i : ℕ)
    (h : NonnegInv s) : NonnegInv (elcorr3_applyStep x par s i) := by
  obtain ⟨hs, hg, hr⟩ := h
  unfold elcorr3_applyStep
  dsimp only
  by_cases h1 : s.soln i + par * x i > 0
  · rw [if_pos h1]
    exact ⟨nonneg_update _ hs _ _ (le_of_lt h1), hg, hr⟩
  · rw [if_neg h1]
    by_cases h2 : s.SSPhase i = true
    · rw [if_pos h2]
      exact ⟨nonneg_update _ hs _ _ le_rfl, hg, hr⟩
    · rw [if_neg h2]
      exact ⟨nonneg_update _ hs _ _ (mul_nonneg (hs i) (by norm_num)), hg, hr⟩

theorem foldl_applyStep_nonneg (x : ℕ → ℚ) (par : ℚ) (l : List ℕ)
    (s : VCSState) (h : NonnegInv s) :
    NonnegInv (List.foldl (elcorr3_applyStep x par) s l) := by
  induction l generalizing s with
  | nil => exact h
  | cons m t ih => exact ih _ (elcorr3_applyStep_nonneg x par s m h)

theorem elcorr_stage3_nonneg (s : VCSState) (r : ℕ) (t : VCSState)
    (hs : elcorr_stage3 s = some (r, t)) (h : NonnegInv s) : NonnegInv t := by
  unfold elcorr_stage3 at hs
  rcases hx : elcorr3_x s with _ | x
  · rw [hx] at hs
    cases hs
  · rw [hx] at hs
    simp only at hs
    have happ : ∀ par : ℚ, NonnegInv (elcorr3_apply s x par) := fun par =>
      foldl_applyStep_nonneg x par _ s h
    split_ifs at hs <;>
      · cases hs
        exact happ _

theorem elcorr4_spec_nonneg (ns0 : ℕ) (st : VCSState × Bool) (k : ℕ)
    (hk : k < ns0)
    (h : NonnegInv st.1 ∧ st.1.m_numSpeciesTot = ns0) :
    NonnegInv (elcorr4_spec st k).1 ∧
      (elcorr4_spec st k).1.m_numSpeciesTot = ns0 := by
  obtain ⟨⟨hs, hg, hr⟩, hns⟩ := h
  unfold elcorr4_spec
  dsimp only
  by_cases h1 : st.2 = true
  · rw [if_pos h1]
    exact ⟨⟨hs, hg, hr⟩, hns⟩
  · rw [if_neg h1]
    by_cases h2 : st.1.SpeciesUnknownType k = VCS_SPECIES_TYPE_INTERFACIALVOLTAGE
    · rw [if_pos h2]
      exact ⟨⟨hs, hg, hr⟩, hns⟩
    · rw [if_neg h2]
      by_cases h3 : elcorr4_dirGood st.1 k = true
      · rw [if_pos h3]
        by_cases h4 : k ≥ st.1.m_numSpeciesRdc
        · exact absurd h4 (by omega)
        · rw [if_neg h4]
          refine ⟨⟨nonneg_update _ hs _ _ ?_, hg, hr⟩, hns⟩
          exact le_trans (by norm_num) (le_max_right _ _)
      · rw [if_neg h3]
        exact ⟨⟨hs, hg, hr⟩, hns⟩

theorem foldl_spec4_nonneg (ns0 : ℕ) :
    ∀ (l : List ℕ) (st : VCSState × Bool), (∀ n ∈ l, n < ns0) →
      (NonnegInv st.1 ∧ st.1.m_numSpeciesTot = ns0) →
      NonnegInv (List.foldl elcorr4_spec st l).1 ∧
        (List.foldl elcorr4_spec st l).1.m_numSpeciesTot = ns0
  | [], _, _, h => h
  | m :: t, st, hl, h =>
    foldl_spec4_nonneg ns0 t (elcorr4_spec st m)
      (fun n hn => hl n (List.mem_cons_of_mem m hn))
      (elcorr4_spec_nonneg ns0 st m (hl m (List.mem_cons_self m t)) h)

theorem elcorr_stage4_nonneg (retn : ℕ) (s : VCSState) (h : NonnegInv s) :
    NonnegInv (elcorr_stage4 retn s).1 := by
  unfold elcorr_stage4
  try dsimp only
  split_ifs
  · exact (foldl_spec4_nonneg s.m_numSpeciesTot (List.range s.m_numSpeciesTot)
      (s, false) (fun n hn => List.mem_range.mp hn) ⟨h, rfl⟩).1
  · exact h

theorem elcorr5_inner_nonneg (i : ℕ) (st : VCSState × Bool) (k : ℕ)
    (h : NonnegInv st.1) : NonnegInv (elcorr5_inner i st k).1 := by
  obtain ⟨hs, hg, hr⟩ := h
  unfold elcorr5_inner elcorr5_apply
  dsimp only
  by_cases h1 : st.2 = true
  · rw [if_pos h1]
    exact ⟨hs, hg, hr⟩
  · rw [if_neg h1]
    by_cases h2 : st.1.ga i > 0 ∧ st.1.FormulaMatrix i k < 0
    · rw [if_pos h2]
      refine ⟨nonneg_update _ hs _ _ ?_, hg, hr⟩
      split_ifs with hv
      · exact le_rfl
      · exact not_lt.mp hv
    · rw [if_neg h2]
      by_cases h3 : st.1.ga i < 0 ∧ st.1.FormulaMatrix i k > 0
      · rw [if_pos h3]
        refine ⟨nonneg_update _ hs _ _ ?_, hg, hr⟩
        split_ifs with hv
        · exact le_rfl
        · exact not_lt.mp hv
      · rw [if_neg h3]
        exact ⟨hs, hg, hr⟩

theorem foldl_inner5_nonneg (i : ℕ) (l : List ℕ) (st : VCSState × Bool)
    (h : NonnegInv st.1) :
    NonnegInv (List.foldl (elcorr5_inner i) st l).1 := by
  induction l generalizing st with
  | nil => exact h
  | cons m t ih => exact ih _ (elcorr5_inner_nonneg i st m h)

theorem elcorr5_row_nonneg (s : VCSState) (i : ℕ) (h : NonnegInv s) :
    NonnegInv (elcorr5_row s i) := by
  unfold elcorr5_row
  try dsimp only
  split_ifs
  · exact foldl_inner5_nonneg i _ (s, false) h
  · exact h

theorem elcorr_stage5_nonneg (s : VCSState) (h : NonnegInv s) :
    NonnegInv (elcorr_stage5 s) := by
  unfold elcorr_stage5
  have : ∀ (l : List ℕ) (t : VCSState), NonnegInv t →
      NonnegInv (List.foldl elcorr5_row t l) := by
    intro l
    induction l with
    | nil => exact fun t ht => ht
    | cons m u ih => exact fun t ht => ih _ (elcorr5_row_nonneg t m ht)
  exact this _ s h

theorem elcorr6_inner_nonneg (i : ℕ) (dev : ℚ) (uz : Bool)
    (st : VCSState × Bool) (k : ℕ) (h : NonnegInv st.1) :
    NonnegInv (elcorr6_inner i dev uz st k).1 := by
  obtain ⟨hs, hg, hr⟩ := h
  unfold elcorr6_inner
  dsimp only
  by_cases h1 : st.2 = true
  · rw [if_pos h1]
    exact ⟨hs, hg, hr⟩
  · rw [if_neg h1]
    by_cases h2 : st.1.soln k > 0 ∨ uz = true
    · rw [if_pos h2]
      by_cases h3 : dev < 0 ∧ st.1.FormulaMatrix i k < 0
      · rw [if_pos h3]
        refine ⟨nonneg_update _ hs _ _ ?_, hg, hr⟩
        split_ifs with hv
        · exact le_rfl
        · exact not_lt.mp hv
      · rw [if_neg h3]
        by_cases h4 : dev > 0 ∧ st.1.FormulaMatrix i k > 0
        · rw [if_pos h4]
          refine ⟨nonneg_update _ hs _ _ ?_, hg, hr⟩
          split_ifs with hv
          · exact le_rfl
          · exact not_lt.mp hv
        · rw [if_neg h4]
          exact ⟨hs, hg, hr⟩
    · rw [if_neg h2]
      exact ⟨hs, hg, hr⟩

theorem foldl_inner6_nonneg (i : ℕ) (dev : ℚ) (uz : Bool) (l : List ℕ)
    (st : VCSState × Bool) (h : NonnegInv st.1) :
    NonnegInv (List.foldl (elcorr6_inner i dev uz) st l).1 := by
  induction l generalizing st with
  | nil => exact h
  | cons m t ih => exact ih _ (elcorr6_inner_nonneg i dev uz st m h)

theorem elcorr6_row_nonneg (s : VCSState) (i : ℕ) (h : NonnegInv s) :
    NonnegInv (elcorr6_row s i) := by
  unfold elcorr6_row
  dsimp only
  split_ifs
  · exact foldl_inner6_nonneg i _ _ _ (s, false) h
  · exact h

theorem elcorr_stage6_nonneg (s : VCSState) (h : NonnegInv s) :
    NonnegInv (elcorr_stage6 s) := by
  unfold elcorr_stage6
  have : ∀ (l : List ℕ) (t : VCSState), NonnegInv t →
      NonnegInv (List.foldl elcorr6_row t l) := by
    intro l
    induction l with
    | nil => exact fun t ht => ht
    | cons m u ih => exact fun t ht => ih _ (elcorr6_row_nonneg t m ht)
  exact this _ s h

theorem vcs_elcorr_nonneg (s : VCSState) (h : NonnegInv s) :
    ∀ r t, vcs_elcorr s = some (r, t) → NonnegInv t := by
  intro r t hret
  unfold vcs_elcorr at hret
  dsimp only at hret
  have inv2 : NonnegInv (elcorr_stage2 (elcorr_stage1 s)) :=
    elcorr_stage2_nonneg _ (elcorr_stage1_nonneg s h)
  rcases h3 : elcorr_stage3 (elcorr_stage2 (elcorr_stage1 s)) with _ | ⟨retn, s3⟩
  · rw [h3] at hret
    simp only at hret
    cases hret
    exact inv2
  · rw [h3] at hret
    simp only at hret
    have inv3 : NonnegInv s3 := elcorr_stage3_nonneg _ retn s3 h3 inv2
    have inv4 : NonnegInv (elcorr_stage4 retn s3).1 :=
      elcorr_stage4_nonneg retn s3 inv3
    split_ifs at hret
    · cases hret
      exact inv4
    · rcases hc : vcs_elabcheck (elcorr_stage4 retn s3).1 false with _ | bv
      · rw [hc] at hret
        cases hret
      · rw [hc] at hret
        rcases bv with _ | _
        · have inv5 : NonnegInv (elcorr_stage5 (elcorr_stage4 retn s3).1) :=
            elcorr_stage5_nonneg _ inv4
          rcases hc2 : vcs_elabcheck (elcorr_stage5 (elcorr_stage4 retn s3).1)
            true with _ | bv2
          · rw [hc2] at hret
            cases hret
          · rw [hc2] at hret
            rcases bv2 with _ | _
            · have inv6 : NonnegInv
                  (elcorr_stage6 (elcorr_stage5 (elcorr_stage4 retn s3).1)) :=
                elcorr_stage6_nonneg _ inv5
              rcases hc3 : vcs_elabcheck
                  (elcorr_stage6 (elcorr_stage5 (elcorr_stage4 retn s3).1)) true
                with _ | bv3
              · rw [hc3] at hret
                cases hret
              · rw [hc3] at hret
                rcases bv3 with _ | _
                · cases hret
                  exact inv6
                · cases hret
                  exact inv6
            · cases hret
              exact inv5
        · cases hret
          exact inv4

/-- C4 (amended): starting from nonnegative mole numbers, the mole
numbers stay nonnegative after every Corrector stage and at the end of
the routine, provided additionally that every target abundance is
nonnegative (the counterexample shows a legitimately negative target
breaks the invariant in stage 1) and that no species has been deleted
(`m_numSpeciesRdc = m_numSpeciesTot`), which rules out the stage-4
reinsertion write `soln[m_numSpeciesRdc - 1] = xx` of a possibly
negative delta. -/
theorem C4_nonneg_invariant (s : VCSState)
    (hsoln : ∀ k, 0 ≤ s.soln k) (hgai : ∀ i, 0 ≤ s.gai i)
    (hrdc : s.m_numSpeciesRdc = s.m_numSpeciesTot) :
    (∀ k, 0 ≤ (elcorr_stage1 s).soln k) ∧
    (∀ k, 0 ≤ (elcorr_stage2 (elcorr_stage1 s)).soln k) ∧
    (∀ r t, elcorr_stage3 (elcorr_stage2 (elcorr_stage1 s)) = some (r, t) →
      (∀ k, 0 ≤ t.soln k) ∧
      (∀ k, 0 ≤ (elcorr_stage4 r t).1.soln k) ∧
      (∀ k, 0 ≤ (elcorr_stage5 (elcorr_stage4 r t).1).soln k) ∧
      (∀ k, 0 ≤ (elcorr_stage6 (elcorr_stage5 (elcorr_stage4 r t).1)).soln k)) ∧
    (∀ r t, vcs_elcorr s = some (r, t) → ∀ k, 0 ≤ t.soln k) := by
  have h : NonnegInv s := ⟨hsoln, hgai, hrdc⟩
  have inv1 := elcorr_stage1_nonneg s h
  have inv2 := elcorr_stage2_nonneg _ inv1
  refine ⟨inv1.1, inv2.1, ?_, ?_⟩
  · intro r t h3
    have inv3 := elcorr_stage3_nonneg _ r t h3 inv2
    have inv4 := elcorr_stage4_nonneg r t inv3
    have inv5 := elcorr_stage5_nonneg _ inv4
    have inv6 := elcorr_stage6_nonneg _ inv5
    exact ⟨inv3.1, inv4.1, inv5.1, inv6.1⟩
  · intro r t hret
    exact (vcs_elcorr_nonneg s h r t hret).1

/-- Witness for the amended C4 at a concrete instance. -/
theorem C4_nonneg_invariant_witness :
    ((∀ k, 0 ≤ nonnegDemoState.soln k) ∧ (∀ i, 0 ≤ nonnegDemoState.gai i) ∧
      nonnegDemoState.m_numSpeciesRdc = nonnegDemoState.m_numSpeciesTot) ∧
    (∀ r t, vcs_elcorr nonnegDemoState = some (r, t) → ∀ k, 0 ≤ t.soln k) := by
  have h1 : ∀ k, 0 ≤ nonnegDemoState.soln k := by
    intro k
    by_cases hk : k = 0 <;> simp [nonnegDemoState, baseState, hk]
  have h2 : ∀ i, 0 ≤ nonnegDemoState.gai i := by
    intro i
    by_cases hi : i = 0 <;> norm_num [nonnegDemoState, baseState, hi]
  have h3 : nonnegDemoState.m_numSpeciesRdc = nonnegDemoState.m_numSpeciesTot :=
    rfl
  exact ⟨⟨h1, h2, h3⟩, (C4_nonneg_invariant nonnegDemoState h1 h2 h3).2.2.2⟩

/-! ## The linear solver: Cramer-rule correctness of `vcsUtil_mlequ` -/

theorem detQ_congr (n : ℕ) (c c' : ℕ → ℕ → ℚ)
    (h : ∀ i < n, ∀ j < n, c i j = c' i j) : detQ n c = detQ n c' := by
  induction n generalizing c c' with
  | zero => rfl
  | succ n ih =>
    unfold detQ
    refine List.foldl_ext _ _ _ ?_
    intro acc j hj
    have hjn : j < n + 1 := List.mem_range.mp hj
    have h0 : c 0 j = c' 0 j := h 0 (Nat.succ_pos n) j hjn
    have hmin : detQ n (fun r k => c (r + 1) (if k < j then k else k + 1)) =
        detQ n (fun r k => c' (r + 1) (if k < j then k else k + 1)) := by
      refine ih _ _ ?_
      intro r hr k hk
      have : (if k < j then k else k + 1) < n + 1 := by
        split_ifs <;> omega
      exact h (r + 1) (by omega) _ this
    rw [h0, hmin]

theorem detQ_eq_det (n : ℕ) (c : ℕ → ℕ → ℚ) :
    detQ n c = (Matrix.of fun i j : Fin n => c i.val j.val).det := by
  induction n generalizing c with
  | zero => simp [detQ, Matrix.det_fin_zero]
  | succ n ih =>
    rw [Matrix.det_succ_row_zero]
    unfold detQ
    rw [foldl_range_add _
      (fun j => (-1) ^ j * c 0 j *
        detQ n (fun r k => c (r + 1) (if k < j then k else k + 1)))
      (fun a k => rfl) 0 (n + 1), zero_add, ← Fin.sum_univ_eq_sum_range]
    refine Finset.sum_congr rfl fun j _ => ?_
    rw [ih]
    congr 1
    refine congrArg Matrix.det ?_
    ext a b
    simp only [Matrix.of_apply, Matrix.submatrix_apply, Fin.succ]
    congr 1
    simp only [Fin.succAbove, Fin.lt_def, Fin.coe_castSucc]
    split_ifs <;> rfl

theorem vcsUtil_mlequ_solves (n : ℕ) (c : ℕ → ℕ → ℚ) (b : ℕ → ℚ) (x : ℕ → ℚ)
    (h : vcsUtil_mlequ n c b = some x) :
    ∀ i, (hi : i < n) →
      (∑ j ∈ Finset.range n, c i j * x j) + b i = 0 := by
  intro i hi
  unfold vcsUtil_mlequ at h
  dsimp only at h
  by_cases hd : detQ n c = 0
  · rw [if_pos hd] at h
    cases h
  · rw [if_neg hd] at h
    have hx : x = fun i =>
        if i < n then detQ n (updateColumnQ c i fun r => -b r) / detQ n c
        else b i := by
      cases h
      rfl
    set M : Matrix (Fin n) (Fin n) ℚ := Matrix.of fun i j : Fin n => c i.val j.val
      with hM
    have hdet : M.det = detQ n c := (detQ_eq_det n c).symm
    have hMdet : M.det ≠ 0 := by
      rw [hdet]
      exact hd
    have hupd : ∀ j : Fin n,
        detQ n (updateColumnQ c j.val fun r => -b r) =
          (M.updateColumn j fun r : Fin n => -b r.val).det := by
      intro j
      rw [detQ_eq_det]
      congr 1
      ext a bb
      simp only [Matrix.of_apply, Matrix.updateColumn_apply, updateColumnQ, hM]
      by_cases hbj : bb = j
      · simp [hbj]
      · have : ¬ bb.val = j.val := fun hv => hbj (Fin.ext hv)
        simp [hbj, this]
    have hcramer := congrFun (Matrix.mulVec_cramer M fun r : Fin n => -b r.val)
      ⟨i, hi⟩
    have hLHS : (M.mulVec (M.cramer fun r : Fin n => -b r.val)) ⟨i, hi⟩ =
        ∑ j : Fin n, c i j.val *
          (M.updateColumn j fun r : Fin n => -b r.val).det := by
      simp only [Matrix.mulVec, Matrix.dotProduct, Matrix.cramer_apply]
      refine Finset.sum_congr rfl fun j _ => ?_
      rfl
    have hsum : (∑ j ∈ Finset.range n, c i j * x j) =
        (∑ j : Fin n, c i j.val *
          (M.updateColumn j fun r : Fin n => -b r.val).det) / detQ n c := by
      rw [← Fin.sum_univ_eq_sum_range (fun j => c i j * x j) n]
      rw [Finset.sum_div]
      refine Finset.sum_congr rfl fun j _ => ?_
      rw [hx]
      simp only [j.isLt, if_pos]
      rw [hupd j]
      ring
    rw [hsum, hLHS.symm, hcramer]
    simp only [Pi.smul_apply, smul_eq_mul, hdet]
    field_simp
    ring

/-! ## C8: stage-3 exactness of the undamped corrector step -/

theorem par0_fold_ge (s : VCSState) (x : ℕ → ℚ) :
    ∀ (l : List ℕ) (c : ℚ),
      c ≤ l.foldl
        (fun par i =>
          if s.soln i > 0 then
            (if par < -x i / s.soln i then -x i / s.soln i else par)
          else par) c
  | [], _ => le_rfl
  | m :: t, c => by
    refine le_trans ?_ (par0_fold_ge s x t _)
    dsimp only
    by_cases h1 : s.soln m > 0
    · rw [if_pos h1]
      by_cases h2 : c < -x m / s.soln m
      · rw [if_pos h2]
        exact le_of_lt h2
      · rw [if_neg h2]
    · rw [if_neg h1]

theorem elcorr3_par0_ge_half (s : VCSState) (x : ℕ → ℚ) :
    1/2 ≤ elcorr3_par0 s x := by
  unfold elcorr3_par0
  exact par0_fold_ge s x _ _

theorem retn_fold_le_one (s : VCSState) :
    ∀ (l : List ℕ) (c : ℕ), c ≤ 1 →
      l.foldl (fun r i => if |s.ga i - s.gai i| > 1/10^13 then 1 else r) c ≤ 1
  | [], _, hc => hc
  | m :: t, c, hc => by
    refine retn_fold_le_one s t _ ?_
    dsimp only
    by_cases h : |s.ga m - s.gai m| > 1/10^13
    · rw [if_pos h]
    · rw [if_neg h]
      exact hc

theorem elcorr3_retn_le_one (s : VCSState) : elcorr3_retn s ≤ 1 := by
  unfold elcorr3_retn
  exact retn_fold_le_one s _ 0 (by omega)

/-- When every damped update stays positive, the undamped (`par = 1`)
stage-3 application adds the correction direction to each component's
mole number and leaves all other species untouched. -/
theorem elcorr3_apply_one_soln (s : VCSState) (x : ℕ → ℚ) :
    ∀ (m : ℕ), (∀ i, i < m → 0 < s.soln i + x i) → ∀ k,
      ((List.range m).foldl (elcorr3_applyStep x 1) s).soln k =
        if k < m then s.soln k + x k else s.soln k := by
  intro m
  induction m with
  | zero =>
    intro _ k
    simp
  | succ m ih =>
    intro hpos k
    rw [List.range_succ, List.foldl_append, List.foldl_cons, List.foldl_nil]
    have hAs := ih (fun i hi => hpos i (by omega))
    set A := (List.range m).foldl (elcorr3_applyStep x 1) s with hA
    have hAm : A.soln m = s.soln m := by
      rw [hAs m]
      simp
    unfold elcorr3_applyStep
    dsimp only
    have htmp : A.soln m + 1 * x m > 0 := by
      rw [hAm, one_mul]
      exact hpos m (by omega)
    rw [if_pos htmp]
    dsimp only
    rcases eq_or_ne k m with rfl | hk
    · rw [Function.update_same, hAm, one_mul]
      rw [if_pos (Nat.lt_succ_self k)]
    · rw [Function.update_noteq hk, hAs k]
      by_cases hkm : k < m
      · rw [if_pos hkm, if_pos (by omega : k < m + 1)]
      · rw [if_neg hkm, if_neg (by omega : ¬ k < m + 1)]

/-- Shifting the mole numbers of the component species by `x` shifts
each recomputed abundance row by the corresponding formula-matrix
combination of `x`, provided no component is an interfacial-voltage
unknown. -/
theorem elab_row_shift (s t : VCSState) (x : ℕ → ℚ)
    (hmeta : ElemMetaEq s t)
    (hsoln : ∀ k, t.soln k =
      if k < s.m_numComponents then s.soln k + x k else s.soln k)
    (hvolt : ∀ i, i < s.m_numComponents →
      s.SpeciesUnknownType i ≠ VCS_SPECIES_TYPE_INTERFACIALVOLTAGE)
    (hns : s.m_numComponents ≤ s.m_numSpeciesTot) (j : ℕ) :
    vcs_elab_row t j =
      vcs_elab_row s j +
        ∑ i ∈ Finset.range s.m_numComponents, s.FormulaMatrix j i * x i := by
  obtain ⟨-, -, h3, -, h5, h6, -⟩ := hmeta
  rw [vcs_elab_row_eq, vcs_elab_row_eq, h3, h5, h6]
  have hterm : ∀ k ∈ Finset.range s.m_numSpeciesTot,
      (if s.SpeciesUnknownType k ≠ VCS_SPECIES_TYPE_INTERFACIALVOLTAGE then
        s.FormulaMatrix j k * t.soln k else 0) =
      (if s.SpeciesUnknownType k ≠ VCS_SPECIES_TYPE_INTERFACIALVOLTAGE then
        s.FormulaMatrix j k * s.soln k else 0) +
      (if k < s.m_numComponents then s.FormulaMatrix j k * x k else 0) := by
    intro k _
    by_cases hv : s.SpeciesUnknownType k = VCS_SPECIES_TYPE_INTERFACIALVOLTAGE
    · have hknc : ¬ k < s.m_numComponents := fun hlt => hvolt k hlt hv
      simp [hv, hknc]
    · rw [hsoln k, if_pos hv, if_pos hv]
      by_cases hknc : k < s.m_numComponents
      · rw [if_pos hknc, if_pos hknc]
        ring
      · rw [if_neg hknc, if_neg hknc]
        ring
  rw [Finset.sum_congr rfl hterm, Finset.sum_add_distrib]
  congr 1
  rw [← Finset.sum_subset (Finset.range_subset.mpr hns)
    (fun y _ hy => by rw [if_neg (by simpa using hy)])]
  exact Finset.sum_congr rfl fun k hk => if_pos (Finset.mem_range.mp hk)

/-- A constraint whose current abundance equals its target passes the
per-constraint check immediately. -/
theorem vcs_elabcheck_one_of_eq (s : VCSState) (i : ℕ)
    (h : s.ga i = s.gai i) : vcs_elabcheck_one s i = some true := by
  unfold vcs_elabcheck_one
  have h0 : ¬ (|s.ga i - s.gai i| > |s.gai i| * (1/10^12)) := by
    rw [h, sub_self, abs_zero]
    exact not_lt.mpr (mul_nonneg (abs_nonneg _) (by norm_num))
  rw [if_neg h0]

theorem vcs_elabcheck_from_all (s : VCSState) :
    ∀ (rem start : ℕ),
      (∀ i, start ≤ i → i < start + rem → vcs_elabcheck_one s i = some true) →
      vcs_elabcheck_from s start rem = some true
  | 0, _, _ => rfl
  | rem + 1, start, hall => by
    have h0 := hall start le_rfl (by omega)
    simp only [vcs_elabcheck_from, h0]
    exact vcs_elabcheck_from_all s rem (start + 1)
      (fun i h1 h2 => hall i (by omega) (by omega))

/-- When the damping search stays at or below one, stage 3 takes the
full (undamped) step and keeps its entry `retn`. -/
theorem elcorr_stage3_full (s : VCSState) (x : ℕ → ℚ)
    (hx : elcorr3_x s = some x) (hdamp : elcorr3_par0 s x ≤ 1) :
    elcorr_stage3 s =
      some (elcorr3_retn s, vcs_tmoles (vcs_elab_run (elcorr3_apply s x 1))) := by
  unfold elcorr_stage3
  rw [hx]
  dsimp only
  have hge : 1/2 ≤ elcorr3_par0 s x := elcorr3_par0_ge_half s x
  have hpos0 : 0 < elcorr3_par0 s x := lt_of_lt_of_le (by norm_num) hge
  have hn100 : ¬ elcorr3_par0 s x > 100 := by
    intro hgt
    linarith
  rw [if_neg hn100]
  have h1le : (1 : ℚ) ≤ 1 / elcorr3_par0 s x := by
    rw [le_div_iff₀ hpos0]
    linarith
  have hcond : ¬ (1 / elcorr3_par0 s x < 1 ∧ 1 / elcorr3_par0 s x > 0) :=
    fun hc => absurd hc.1 (not_lt.mpr h1le)
  rw [if_neg hcond]

/-- After the full stage-3 step at a state whose component abundances
are current, every component abundance equals its target exactly: the
step solves the component equations. -/
theorem elcorr3_full_state (s : VCSState) (x : ℕ → ℚ)
    (hx : elcorr3_x s = some x)
    (hcur : ∀ j, j < s.m_numComponents → s.ga j = vcs_elab_row s j)
    (hvolt : ∀ i, i < s.m_numComponents →
      s.SpeciesUnknownType i ≠ VCS_SPECIES_TYPE_INTERFACIALVOLTAGE)
    (hne : s.m_numComponents ≤ s.m_numElemConstraints)
    (hns : s.m_numComponents ≤ s.m_numSpeciesTot)
    (hpos : ∀ i, i < s.m_numComponents → 0 < s.soln i + x i) :
    ∀ j, j < s.m_numComponents →
      (vcs_tmoles (vcs_elab_run (elcorr3_apply s x 1))).ga j = s.gai j := by
  intro j hj
  have htm : (vcs_tmoles (vcs_elab_run (elcorr3_apply s x 1))).ga =
      (vcs_elab_run (elcorr3_apply s x 1)).ga := rfl
  rw [htm]
  set u := elcorr3_apply s x 1 with hu
  have humeta : ElemMetaEq s u := elcorr3_apply_meta s x 1
  have hjne : j < u.m_numElemConstraints := by
    rw [humeta.1]
    omega
  have hga : (vcs_elab_run u).ga j = vcs_elab_row u j := by
    simp [vcs_elab_run, hjne]
  rw [hga]
  have husoln : ∀ k, u.soln k =
      if k < s.m_numComponents then s.soln k + x k else s.soln k :=
    fun k => elcorr3_apply_one_soln s x s.m_numComponents hpos k
  have hx' : vcsUtil_mlequ s.m_numComponents (fun a b => s.FormulaMatrix a b)
      (fun i => s.ga i - s.gai i) = some x := hx
  have hsolve' : (∑ i ∈ Finset.range s.m_numComponents,
      s.FormulaMatrix j i * x i) + (s.ga j - s.gai j) = 0 :=
    vcsUtil_mlequ_solves s.m_numComponents _ _ x hx' j hj
  have hsum : (∑ i ∈ Finset.range s.m_numComponents,
      s.FormulaMatrix j i * x i) = -(s.ga j - s.gai j) := by
    linarith
  rw [elab_row_shift s u x humeta husoln hvolt hns j, hsum, ← hcur j hj]
  ring

/-- C8 (amended): for every input where the stage-3 linear solve
succeeds, the stage-2 state's component abundances are current, no
component is an interfacial-voltage unknown, the component count is
within the constraint and species counts, the damping search stays at
or below one (so the full step is taken) and the full step keeps every
component's mole number positive, one call to the Corrector returns
status 1 with every component abundance exactly equal to its target, so
the sum over the component constraints of squared discrepancies does
not increase (it drops to zero). -/
theorem C8_component_descent (s0 : VCSState) (x : ℕ → ℚ)
    (hx : elcorr3_x (elcorr_stage2 (elcorr_stage1 s0)) = some x)
    (hcur : ∀ j, j < s0.m_numComponents →
      (elcorr_stage2 (elcorr_stage1 s0)).ga j =
        vcs_elab_row (elcorr_stage2 (elcorr_stage1 s0)) j)
    (hvolt : ∀ i, i < s0.m_numComponents →
      s0.SpeciesUnknownType i ≠ VCS_SPECIES_TYPE_INTERFACIALVOLTAGE)
    (hne : s0.m_numComponents ≤ s0.m_numElemConstraints)
    (hns : s0.m_numComponents ≤ s0.m_numSpeciesTot)
    (hdamp : elcorr3_par0 (elcorr_stage2 (elcorr_stage1 s0)) x ≤ 1)
    (hpos : ∀ i, i < s0.m_numComponents →
      0 < (elcorr_stage2 (elcorr_stage1 s0)).soln i + x i) :
    ∃ t, vcs_elcorr s0 = some (ElcorrRet.status 1, t) ∧
      (∀ i, i < s0.m_numComponents → t.ga i = t.gai i) ∧
      ∑ i ∈ Finset.range s0.m_numComponents, (t.ga i - t.gai i)^2 ≤
        ∑ i ∈ Finset.range s0.m_numComponents, (s0.ga i - s0.gai i)^2 := by
  set s2 := elcorr_stage2 (elcorr_stage1 s0) with hs2
  have m02 : ElemMetaEq s0 s2 :=
    ElemMetaEq_trans (elcorr_stage1_meta s0) (elcorr_stage2_meta _)
  have hne2 : s2.m_numElemConstraints = s0.m_numElemConstraints := m02.1
  have hnc2 : s2.m_numComponents = s0.m_numComponents := m02.2.1
  have hns2 : s2.m_numSpeciesTot = s0.m_numSpeciesTot := m02.2.2.1
  have hgai2 : s2.gai = s0.gai := m02.2.2.2.1
  have hvolt2 : ∀ i, i < s2.m_numComponents →
      s2.SpeciesUnknownType i ≠ VCS_SPECIES_TYPE_INTERFACIALVOLTAGE := by
    intro i hi
    rw [m02.2.2.2.2.2.1]
    exact hvolt i (by omega)
  set s3 := vcs_tmoles (vcs_elab_run (elcorr3_apply s2 x 1)) with hs3
  have m23 : ElemMetaEq s2 s3 :=
    ElemMetaEq_trans (elcorr3_apply_meta s2 x 1)
      (ElemMetaEq_trans (vcs_elab_step_meta _) (vcs_tmoles_meta _))
  have hnc3 : s3.m_numComponents = s2.m_numComponents := m23.2.1
  have hgai3 : s3.gai = s2.gai := m23.2.2.2.1
  have hga3 : ∀ j, j < s2.m_numComponents → s3.ga j = s2.gai j := by
    intro j hj
    exact elcorr3_full_state s2 x hx (fun j hj => hcur j (by omega)) hvolt2
      (by rw [hnc2, hne2]; exact hne) (by rw [hnc2, hns2]; exact hns)
      (fun i hi => hpos i (by omega)) j hj
  have hfix : ∀ i, i < s0.m_numComponents → s3.ga i = s3.gai i := by
    intro i hi
    rw [hga3 i (by omega), hgai3]
  have hst3 : elcorr_stage3 s2 = some (elcorr3_retn s2, s3) :=
    elcorr_stage3_full s2 x hx hdamp
  have hretn : elcorr3_retn s2 ≤ 1 := elcorr3_retn_le_one s2
  have hst4 : elcorr_stage4 (elcorr3_retn s2) s3 = (s3, false) := by
    unfold elcorr_stage4
    rw [if_neg (by omega)]
  have hchk : vcs_elabcheck s3 false = some true := by
    show vcs_elabcheck_from s3 0 s3.m_numComponents = some true
    refine vcs_elabcheck_from_all s3 s3.m_numComponents 0 ?_
    intro i _ hi
    exact vcs_elabcheck_one_of_eq s3 i (hfix i (by omega))
  refine ⟨vcs_tmoles s3, ?_, ?_, ?_⟩
  · unfold vcs_elcorr
    dsimp only
    rw [← hs2, hst3]
    dsimp only
    rw [hst4]
    dsimp only
    rw [if_neg Bool.false_ne_true, hchk]
  · intro i hi
    exact hfix i hi
  · have hz : ∑ i ∈ Finset.range s0.m_numComponents,
        ((vcs_tmoles s3).ga i - (vcs_tmoles s3).gai i)^2 = 0 := by
      refine Finset.sum_eq_zero fun i hi => ?_
      have hieq : s3.ga i = s3.gai i := hfix i (Finset.mem_range.mp hi)
      show (s3.ga i - s3.gai i)^2 = 0
      rw [hieq, sub_self]
      ring
    rw [hz]
    exact Finset.sum_nonneg fun i _ => sq_nonneg _

/-- Witness for C8: at `elcorrL2DemoState` the solve succeeds with
direction `3/2`, all hypotheses hold, and the Corrector returns status 1
with the component discrepancy driven to zero. -/
theorem C8_component_descent_witness :
    elcorr3_x (elcorr_stage2 (elcorr_stage1 elcorrL2DemoState)) =
        some elcorrL2DemoDir ∧
    ∃ t, vcs_elcorr elcorrL2DemoState = some (ElcorrRet.status 1, t) ∧
      (∀ i, i < elcorrL2DemoState.m_numComponents → t.ga i = t.gai i) ∧
      ∑ i ∈ Finset.range elcorrL2DemoState.m_numComponents,
          (t.ga i - t.gai i)^2 ≤
        ∑ i ∈ Finset.range elcorrL2DemoState.m_numComponents,
          (elcorrL2DemoState.ga i - elcorrL2DemoState.gai i)^2 := by
  have e12 : elcorr_stage2 (elcorr_stage1 elcorrL2DemoState) =
      elcorrL2DemoState := by
    norm_num [elcorr_stage1, elcorr_stage2, elcorr1_row, elcorr1_multisign,
      elcorr1_numNonZero, elcorr2_row, elcorrL2DemoState, baseState,
      VCS_ELEM_TYPE_ABSPOS, VCS_ELEM_TYPE_NORMAL,
      VCS_SPECIES_TYPE_INTERFACIALVOLTAGE, List.range_succ]
  have hxdemo : elcorr3_x elcorrL2DemoState = some elcorrL2DemoDir := by
    unfold elcorr3_x vcsUtil_mlequ
    dsimp only
    rw [if_neg (by norm_num [detQ, elcorrL2DemoState, baseState,
      List.range_succ])]
    congr 1
    funext i
    rcases Nat.lt_or_ge i 1 with hi | hi
    · interval_cases i
      norm_num [elcorrL2DemoDir, detQ, updateColumnQ, elcorrL2DemoState,
        baseState, List.range_succ]
    · have h1 : ¬ i < 1 := by omega
      have h0 : ¬ i = 0 := by omega
      norm_num [elcorrL2DemoDir, elcorrL2DemoState, baseState, h1, h0]
  refine ⟨by rw [e12]; exact hxdemo, ?_⟩
  refine C8_component_descent elcorrL2DemoState elcorrL2DemoDir
    (by rw [e12]; exact hxdemo) ?_ ?_ ?_ ?_ ?_ ?_
  · rw [e12]
    intro j hj
    have hj1 : j < 1 := hj
    interval_cases j
    norm_num [elcorrL2DemoState, baseState, vcs_elab_row, List.range_succ,
      VCS_SPECIES_TYPE_INTERFACIALVOLTAGE]
  · intro i hi
    have hi1 : i < 1 := hi
    interval_cases i
    norm_num [elcorrL2DemoState, baseState, VCS_SPECIES_TYPE_INTERFACIALVOLTAGE]
  · norm_num [elcorrL2DemoState, baseState]
  · norm_num [elcorrL2DemoState, baseState]
  · rw [e12]
    norm_num [elcorr3_par0, elcorrL2DemoDir, elcorrL2DemoState, baseState,
      List.range_succ]
  · rw [e12]
    intro i hi
    have hi1 : i < 1 := hi
    interval_cases i
    norm_num [elcorrL2DemoState, baseState, elcorrL2DemoDir]

/-! ## C6: the Rearranger on already-independent input -/

theorem rearr_candLoop_succ (s : VCSState) (aw : ℕ → ℚ) (sm : ℕ → ℕ → ℚ)
    (sa : ℕ → ℚ) (test : ℚ) (jr fuel : ℕ) :
    rearr_candLoop s aw sm sa test jr (fuel + 1) =
      match rearr_findCand s aw test jr with
      | none => none
      | some k =>
        if rearr_sa s (rearr_col s sm sa jr k) < 1/10^6 then
          rearr_candLoop s (Function.update aw k test)
            (Function.update sm jr (rearr_col s sm sa jr k))
            (Function.update sa jr (rearr_sa s (rearr_col s sm sa jr k)))
            test jr fuel
        else some (k, Function.update aw k test,
          Function.update sm jr (rearr_col s sm sa jr k),
          Function.update sa jr (rearr_sa s (rearr_col s sm sa jr k))) := rfl

theorem rearr_outer_succ (s : VCSState) (aw : ℕ → ℚ) (sm : ℕ → ℕ → ℚ)
    (sa : ℕ → ℚ) (test : ℚ) (jr count : ℕ) :
    rearr_outer s aw sm sa test jr (count + 1) =
      match rearr_candLoop s aw sm sa test jr (s.m_numElemConstraints + 1) with
      | none => none
      | some (k, aw', sm', sa') =>
        if jr ≠ k then
          rearr_outer (vcs_switch_elem_pos s jr k) (swapFn aw' jr k) sm' sa'
            test (jr + 1) count
        else rearr_outer s aw' sm' sa' test (jr + 1) count := rfl

theorem rearr_candLoop_none (s : VCSState) (aw : ℕ → ℚ) (sm : ℕ → ℕ → ℚ)
    (sa : ℕ → ℚ) (test : ℚ) (jr fuel : ℕ)
    (h : rearr_findCand s aw test jr = none) :
    rearr_candLoop s aw sm sa test jr fuel = none := by
  cases fuel with
  | zero => rfl
  | succ f =>
    rw [rearr_candLoop_succ, h]

theorem rearr_outer_abort (s : VCSState) (aw : ℕ → ℚ) (sm : ℕ → ℕ → ℚ)
    (sa : ℕ → ℚ) (test : ℚ) (jr count : ℕ)
    (h : rearr_candLoop s aw sm sa test jr (s.m_numElemConstraints + 1) =
      none) :
    rearr_outer s aw sm sa test jr (count + 1) = none := by
  rw [rearr_outer_succ, h]

theorem rearr_outer_accept (s : VCSState) (aw : ℕ → ℚ) (sm : ℕ → ℕ → ℚ)
    (sa : ℕ → ℚ) (test : ℚ) (jr count : ℕ) (aw' : ℕ → ℚ) (sm' : ℕ → ℕ → ℚ)
    (sa' : ℕ → ℚ)
    (h : rearr_candLoop s aw sm sa test jr (s.m_numElemConstraints + 1) =
      some (jr, aw', sm', sa')) :
    rearr_outer s aw sm sa test jr (count + 1) =
      rearr_outer s aw' sm' sa' test (jr + 1) count := by
  rw [rearr_outer_succ, h]
  dsimp only
  rw [if_neg (fun hc => hc rfl)]

/-- When no target abundance collides with the sentinel region, the
sentinel loop stops after one pass. -/
theorem rearr_sentinel_clean (s : VCSState)
    (h3 : ∀ i, i < s.m_numElemConstraints → -(10^10 : ℚ) < s.gai i) :
    rearr_sentinel s.gai s.m_numElemConstraints (s.m_numElemConstraints + 1)
        (-(10 ^ 10)) =
      some (-(10 ^ 10) - (s.m_numElemConstraints : ℚ)) := by
  unfold rearr_sentinel
  have hno : ¬ ∃ i ∈ Finset.range s.m_numElemConstraints,
      s.gai i = -(10 ^ 10) - ((i : ℚ) + 1) := by
    rintro ⟨i, hi, heq⟩
    have hib := h3 i (Finset.mem_range.mp hi)
    have hc : (0 : ℚ) ≤ (i : ℚ) := Nat.cast_nonneg i
    rw [heq] at hib
    linarith
  rw [if_neg hno]

/-- The accept-without-reject run of the Rearranger's outer loop: as
long as every remaining position holds its own (active, Gram-Schmidt
regular) constraint, each iteration accepts the diagonal candidate,
performs no swap, and extends the `gsAcc` data by one column. -/
theorem rearr_outer_clean (s : VCSState) (test : ℚ)
    (h2 : s.m_numComponents ≤ s.m_numElemConstraints)
    (h4 : ∀ i, i < s.m_numComponents → s.ElActive i = true)
    (h5 : ∀ j, j < s.m_numComponents → 1/10^6 ≤ gsRes s j)
    (htest : ∀ i, i < s.m_numElemConstraints → s.gai i ≠ test) :
    ∀ (count jr : ℕ) (aw : ℕ → ℚ), jr + count = s.m_numComponents →
      (∀ i, jr ≤ i → i < s.m_numElemConstraints → aw i = s.gai i) →
      rearr_outer s aw (gsAcc s jr).1 (gsAcc s jr).2 test jr count = some s
  | 0, jr, aw, _, _ => rfl
  | count + 1, jr, aw, hcount, haw => by
    have hjr : jr < s.m_numComponents := by omega
    have hjne : jr < s.m_numElemConstraints := by omega
    have hfind : rearr_findCand s aw test jr = some jr := by
      unfold rearr_findCand
      obtain ⟨m, hm⟩ : ∃ m, s.m_numElemConstraints - jr = m + 1 :=
        ⟨s.m_numElemConstraints - jr - 1, by omega⟩
      rw [hm, List.range'_succ]
      refine List.find?_cons_of_pos _ ?_
      simp [h4 jr hjr, haw jr le_rfl hjne, htest jr hjne]
    have hsanew : gsRes s jr =
        rearr_sa s (rearr_col s (gsAcc s jr).1 (gsAcc s jr).2 jr jr) := by
      simp [gsRes, gsAcc]
    have hnot : ¬ (rearr_sa s
        (rearr_col s (gsAcc s jr).1 (gsAcc s jr).2 jr jr) < 1/10^6) := by
      rw [← hsanew]
      exact not_lt.mpr (h5 jr hjr)
    have hcand : rearr_candLoop s aw (gsAcc s jr).1 (gsAcc s jr).2 test jr
        (s.m_numElemConstraints + 1) =
        some (jr, Function.update aw jr test,
          (gsAcc s (jr + 1)).1, (gsAcc s (jr + 1)).2) := by
      rw [rearr_candLoop_succ, hfind]
      dsimp only
      rw [if_neg hnot]
      simp [gsAcc]
    rw [rearr_outer_accept s aw (gsAcc s jr).1 (gsAcc s jr).2 test jr count
      (Function.update aw jr test) (gsAcc s (jr + 1)).1 (gsAcc s (jr + 1)).2
      hcand]
    exact rearr_outer_clean s test h2 h4 h5 htest count (jr + 1)
      (Function.update aw jr test) (by omega)
      (fun i hi1 hi2 => by
        rw [Function.update_noteq (by omega : i ≠ jr)]
        exact haw i (by omega) hi2)

/-- C6 (amended): when there is at least one component, the component
count does not exceed the constraint count, no target abundance lies in
the sentinel region, the first `C` constraints are active, and every one
of the first `C` rows has squared Gram-Schmidt residual at least `1e-6`
against its predecessors (the code's own acceptance criterion, strictly
stronger than linear independence), the Rearranger accepts each
constraint in place: it performs no swap and returns the state
entirely unchanged. -/
theorem C6_rearranger_identity (s : VCSState)
    (h1 : 0 < s.m_numComponents)
    (h2 : s.m_numComponents ≤ s.m_numElemConstraints)
    (h3 : ∀ i, i < s.m_numElemConstraints → -(10^10 : ℚ) < s.gai i)
    (h4 : ∀ i, i < s.m_numComponents → s.ElActive i = true)
    (h5 : ∀ j, j < s.m_numComponents → 1/10^6 ≤ gsRes s j) :
    vcs_elem_rearrange s = some s := by
  unfold vcs_elem_rearrange
  rw [rearr_sentinel_clean s h3]
  dsimp only
  rw [max_eq_right h1]
  have htest : ∀ i, i < s.m_numElemConstraints →
      s.gai i ≠ -(10 ^ 10) - (s.m_numElemConstraints : ℚ) := by
    intro i hi heq
    have hib := h3 i hi
    have hc : (0 : ℚ) ≤ (s.m_numElemConstraints : ℚ) := Nat.cast_nonneg _
    rw [heq] at hib
    linarith
  exact rearr_outer_clean s (-(10 ^ 10) - (s.m_numElemConstraints : ℚ))
    h2 h4 h5 htest s.m_numComponents 0
    (fun i => if i < s.m_numElemConstraints then s.gai i else 0)
    (by omega) (fun i _ hi => if_pos hi)

/-- Witness for C6: the identity formula matrix on two constraints and
two component species satisfies all hypotheses, and the Rearranger
returns the state unchanged. -/
theorem C6_rearranger_identity_witness :
    (0 < rearrDemoState.m_numComponents ∧
     rearrDemoState.m_numComponents ≤ rearrDemoState.m_numElemConstraints ∧
     (∀ j, j < rearrDemoState.m_numComponents →
       1/10^6 ≤ gsRes rearrDemoState j)) ∧
    vcs_elem_rearrange rearrDemoState = some rearrDemoState := by
  have hh1 : 0 < rearrDemoState.m_numComponents := by
    norm_num [rearrDemoState, baseState]
  have hh2 : rearrDemoState.m_numComponents ≤
      rearrDemoState.m_numElemConstraints := by
    norm_num [rearrDemoState, baseState]
  have hh3 : ∀ i, i < rearrDemoState.m_numElemConstraints →
      -(10^10 : ℚ) < rearrDemoState.gai i := by
    intro i _
    simp only [rearrDemoState, baseState]
    split_ifs <;> norm_num
  have hh4 : ∀ i, i < rearrDemoState.m_numComponents →
      rearrDemoState.ElActive i = true := fun i _ => rfl
  have hh5 : ∀ j, j < rearrDemoState.m_numComponents →
      1/10^6 ≤ gsRes rearrDemoState j := by
    intro j hj
    have hj2 : j < 2 := hj
    interval_cases j <;>
      norm_num [gsRes, gsAcc, rearr_col, rearr_sa, rearrDemoState, baseState,
        Function.update, Finset.sum_range_succ, Finset.sum_range_zero]
  exact ⟨⟨hh1, hh2, hh5⟩,
    C6_rearranger_identity rearrDemoState hh1 hh2 hh3 hh4 hh5⟩

/-- C6 counterexample: the rows `[1, 0]` and `[1, 1e-4]` of
`rearrCexState` are linearly independent on the component columns, yet
the Rearranger does not leave the state unchanged - it aborts, because
the code's acceptance test compares the squared Gram-Schmidt residual
(`1e-8` here) against the absolute threshold `1e-6`. -/
theorem C6_counterexample :
    componentRowsIndependent rearrCexState ∧
    vcs_elem_rearrange rearrCexState = none := by
  constructor
  · show (componentRowsSquare rearrCexState).det ≠ 0
    have hdet : (componentRowsSquare rearrCexState).det =
        (Matrix.of fun i j : Fin 2 =>
          rearrCexState.FormulaMatrix i.val j.val).det := rfl
    rw [hdet, Matrix.det_fin_two]
    norm_num [Matrix.of_apply, rearrCexState, baseState]
  · have hb : ∀ i, i < rearrCexState.m_numElemConstraints →
        -(10^10 : ℚ) < rearrCexState.gai i := by
      intro i _
      simp only [rearrCexState, baseState]
      split_ifs <;> norm_num
    unfold vcs_elem_rearrange
    rw [rearr_sentinel_clean rearrCexState hb]
    dsimp only
    rw [show ((rearrCexState.m_numElemConstraints : ℕ) : ℚ) = 2 from by
      norm_num [rearrCexState, baseState]]
    rw [show max 1 rearrCexState.m_numComponents = 1 + 1 from rfl]
    have hfind1 : rearr_findCand rearrCexState
        (fun i => if i < rearrCexState.m_numElemConstraints then
          rearrCexState.gai i else 0) (-(10 ^ 10) - 2) 0 = some 0 := by
      unfold rearr_findCand
      rw [show rearrCexState.m_numElemConstraints - 0 = 2 from rfl]
      rw [show List.range' 0 2 = [0, 1] from rfl]
      refine List.find?_cons_of_pos _ ?_
      norm_num [rearrCexState, baseState]
    have hno1 : ¬ (rearr_sa rearrCexState
        (rearr_col rearrCexState (fun _ _ => 0) (fun _ => 0) 0 0) <
          1/10^6) := by
      norm_num [rearr_sa, rearr_col, rearrCexState, baseState,
        Finset.sum_range_succ, Finset.sum_range_zero]
    have hcand1 : rearr_candLoop rearrCexState
        (fun i => if i < rearrCexState.m_numElemConstraints then
          rearrCexState.gai i else 0) (fun _ _ => 0) (fun _ => 0)
        (-(10 ^ 10) - 2) 0 (rearrCexState.m_numElemConstraints + 1) =
        some (0,
          Function.update
            (fun i => if i < rearrCexState.m_numElemConstraints then
              rearrCexState.gai i else 0) 0 (-(10 ^ 10) - 2),
          Function.update (fun _ _ => 0) 0
            (rearr_col rearrCexState (fun _ _ => 0) (fun _ => 0) 0 0),
          Function.update (fun _ => 0) 0
            (rearr_sa rearrCexState
              (rearr_col rearrCexState (fun _ _ => 0) (fun _ => 0) 0 0))) := by
      rw [rearr_candLoop_succ, hfind1]
      dsimp only
      rw [if_neg hno1]
    rw [rearr_outer_accept rearrCexState _ _ _ (-(10 ^ 10) - 2) 0 1 _ _ _
      hcand1]
    have hfind2 : rearr_findCand rearrCexState
        (Function.update
          (fun i => if i < rearrCexState.m_numElemConstraints then
            rearrCexState.gai i else 0) 0 (-(10 ^ 10) - 2))
        (-(10 ^ 10) - 2) 1 = some 1 := by
      unfold rearr_findCand
      rw [show rearrCexState.m_numElemConstraints - 1 = 1 from rfl]
      rw [show List.range' 1 1 = [1] from rfl]
      refine List.find?_cons_of_pos _ ?_
      norm_num [Function.update, rearrCexState, baseState]
    have hlt2 : rearr_sa rearrCexState
        (rearr_col rearrCexState
          (Function.update (fun _ _ => 0) 0
            (rearr_col rearrCexState (fun _ _ => 0) (fun _ => 0) 0 0))
          (Function.update (fun _ => 0) 0
            (rearr_sa rearrCexState
              (rearr_col rearrCexState (fun _ _ => 0) (fun _ => 0) 0 0)))
          1 1) < 1/10^6 := by
      norm_num [rearr_sa, rearr_col, rearrCexState, baseState,
        Function.update, Finset.sum_range_succ, Finset.sum_range_zero]
    have hfind3 : rearr_findCand rearrCexState
        (Function.update
          (Function.update
            (fun i => if i < rearrCexState.m_numElemConstraints then
              rearrCexState.gai i else 0) 0 (-(10 ^ 10) - 2))
          1 (-(10 ^ 10) - 2))
        (-(10 ^ 10) - 2) 1 = none := by
      unfold rearr_findCand
      rw [show rearrCexState.m_numElemConstraints - 1 = 1 from rfl]
      rw [show List.range' 1 1 = [1] from rfl]
      refine List.find?_eq_none.mpr ?_
      intro a ha
      have ha1 : a = 1 := by simpa using ha
      subst ha1
      simp [Function.update]
    have hcand2 : rearr_candLoop rearrCexState
        (Function.update
          (fun i => if i < rearrCexState.m_numElemConstraints then
            rearrCexState.gai i else 0) 0 (-(10 ^ 10) - 2))
        (Function.update (fun _ _ => 0) 0
          (rearr_col rearrCexState (fun _ _ => 0) (fun _ => 0) 0 0))
        (Function.update (fun _ => 0) 0
          (rearr_sa rearrCexState
            (rearr_col rearrCexState (fun _ _ => 0) (fun _ => 0) 0 0)))
        (-(10 ^ 10) - 2) 1 (rearrCexState.m_numElemConstraints + 1) =
        none := by
      rw [rearr_candLoop_succ, hfind2]
      dsimp only
      rw [if_pos hlt2]
      exact rearr_candLoop_none rearrCexState _ _ _ (-(10 ^ 10) - 2) 1 _ hfind3
    exact rearr_outer_abort rearrCexState _ _ _ (-(10 ^ 10) - 2) 1 0 hcand2

/-! ## C7: exhaustion aborts; normal return delivers accepted components -/

theorem rearr_findCand_some (s : VCSState) (aw : ℕ → ℚ) (test : ℚ) (jr k : ℕ)
    (h : rearr_findCand s aw test jr = some k) :
    s.ElActive k = true ∧ aw k ≠ test ∧ jr ≤ k ∧
      k < s.m_numElemConstraints := by
  unfold rearr_findCand at h
  have hp := List.find?_some h
  have hm := List.mem_of_find?_eq_some h
  rw [List.mem_range'_1] at hm
  simp only [Bool.and_eq_true, decide_eq_true_eq] at hp
  exact ⟨hp.1, hp.2, hm.1, by omega⟩

theorem cardAvail_update (s : VCSState) (aw : ℕ → ℚ) (test : ℚ) (k : ℕ)
    (hk : k < s.m_numElemConstraints) (hact : s.ElActive k = true)
    (hne : aw k ≠ test) :
    cardAvail s (Function.update aw k test) test < cardAvail s aw test := by
  unfold cardAvail
  have hsub : (Finset.range s.m_numElemConstraints).filter
      (fun i => s.ElActive i = true ∧ Function.update aw k test i ≠ test) ⊆
      (Finset.range s.m_numElemConstraints).filter
      (fun i => s.ElActive i = true ∧ aw i ≠ test) := by
    intro i hi
    simp only [Finset.mem_filter, Finset.mem_range] at hi ⊢
    have hik : i ≠ k := by
      intro he
      subst he
      exact hi.2.2 (Function.update_same _ _ _)
    have h2 := hi.2.2
    rw [Function.update_noteq hik] at h2
    exact ⟨hi.1, hi.2.1, h2⟩
  have hmem : k ∈ (Finset.range s.m_numElemConstraints).filter
      (fun i => s.ElActive i = true ∧ aw i ≠ test) := by
    simp only [Finset.mem_filter, Finset.mem_range]
    exact ⟨hk, hact, hne⟩
  have hnot : k ∉ (Finset.range s.m_numElemConstraints).filter
      (fun i => s.ElActive i = true ∧ Function.update aw k test i ≠ test) := by
    simp only [Finset.mem_filter, Finset.mem_range]
    rintro ⟨-, -, hgg⟩
    exact hgg (Function.update_same _ _ _)
  exact Finset.card_lt_card
    ((Finset.ssubset_iff_of_subset hsub).mpr ⟨k, hmem, hnot⟩)

theorem rearr_col_congr (s : VCSState) (sm sm₂ : ℕ → ℕ → ℚ) (sa sa₂ : ℕ → ℚ)
    (jr k : ℕ) (hsm : ∀ j, j < jr → sm j = sm₂ j)
    (hsa : ∀ j, j < jr → sa j = sa₂ j) :
    rearr_col s sm sa jr k = rearr_col s sm₂ sa₂ jr k := by
  unfold rearr_col
  funext l
  by_cases hl : l < s.m_numComponents
  · rw [if_pos hl, if_pos hl]
    refine congrArg (fun z => s.FormulaMatrix k l - z) ?_
    refine Finset.sum_congr rfl fun j hj => ?_
    have hjlt := Finset.mem_range.mp hj
    rw [hsm j hjlt, hsa j hjlt]
  · rw [if_neg hl, if_neg hl]

theorem rearr_col_state (u' u : VCSState)
    (hnc : u'.m_numComponents = u.m_numComponents) (jr k' k : ℕ)
    (hrow : ∀ l, l < u.m_numComponents →
      u'.FormulaMatrix k' l = u.FormulaMatrix k l)
    (sm : ℕ → ℕ → ℚ) (sa : ℕ → ℚ) :
    rearr_col u' sm sa jr k' = rearr_col u sm sa jr k := by
  unfold rearr_col
  funext l
  rw [hnc]
  by_cases hl : l < u.m_numComponents
  · rw [if_pos hl, if_pos hl]
    have hsum : ∀ j : ℕ,
        (∑ l' ∈ Finset.range u.m_numComponents,
          u'.FormulaMatrix k' l' * sm j l') =
        ∑ l' ∈ Finset.range u.m_numComponents,
          u.FormulaMatrix k l' * sm j l' := by
      intro j
      refine Finset.sum_congr rfl fun l' hl' => ?_
      rw [hrow l' (Finset.mem_range.mp hl')]
    rw [hrow l hl]
    refine congrArg (fun z => u.FormulaMatrix k l - z) ?_
    refine Finset.sum_congr rfl fun j _ => ?_
    rw [hsum j]
  · rw [if_neg hl, if_neg hl]

theorem rearr_sa_state (u' u : VCSState)
    (hnc : u'.m_numComponents = u.m_numComponents) (col : ℕ → ℚ) :
    rearr_sa u' col = rearr_sa u col := by
  unfold rearr_sa
  rw [hnc]

theorem gsAcc_succ (s : VCSState) (m : ℕ) :
    gsAcc s (m + 1) =
      (Function.update (gsAcc s m).1 m
        (rearr_col s (gsAcc s m).1 (gsAcc s m).2 m m),
       Function.update (gsAcc s m).2 m
        (rearr_sa s (rearr_col s (gsAcc s m).1 (gsAcc s m).2 m m))) := rfl

theorem gsAcc_state_congr (u' u : VCSState)
    (hnc : u'.m_numComponents = u.m_numComponents) :
    ∀ (m : ℕ), (∀ j, j < m → ∀ l, l < u.m_numComponents →
        u'.FormulaMatrix j l = u.FormulaMatrix j l) →
      gsAcc u' m = gsAcc u m
  | 0, _ => rfl
  | m + 1, hrow => by
    have ih := gsAcc_state_congr u' u hnc m
      (fun j hj l hl => hrow j (by omega) l hl)
    rw [gsAcc_succ, gsAcc_succ, ih,
      rearr_col_state u' u hnc m m m (fun l hl => hrow m (by omega) l hl) _ _,
      rearr_sa_state u' u hnc _]

/-- Characterization of a successful candidate-loop run: the accepted
constraint is active, in range at or beyond `jr`, the work matrices are
written only at index `jr` and there hold the Gram-Schmidt column of the
accepted row with squared norm at least `1e-6`, and at least one
available constraint was consumed. -/
theorem rearr_candLoop_some (s : VCSState) (test : ℚ) (jr : ℕ) :
    ∀ (fuel : ℕ) (aw : ℕ → ℚ) (sm : ℕ → ℕ → ℚ) (sa : ℕ → ℚ)
      (k : ℕ) (aw' : ℕ → ℚ) (sm' : ℕ → ℕ → ℚ) (sa' : ℕ → ℚ),
      rearr_candLoop s aw sm sa test jr fuel = some (k, aw', sm', sa') →
      s.ElActive k = true ∧ jr ≤ k ∧ k < s.m_numElemConstraints ∧
      (∀ j, j ≠ jr → sm' j = sm j) ∧ (∀ j, j ≠ jr → sa' j = sa j) ∧
      sm' jr = rearr_col s sm sa jr k ∧
      sa' jr = rearr_sa s (rearr_col s sm sa jr k) ∧
      1/10^6 ≤ rearr_sa s (rearr_col s sm sa jr k) ∧
      cardAvail s aw' test < cardAvail s aw test
  | 0, aw, sm, sa, k, aw', sm', sa', h => by
    rw [show rearr_candLoop s aw sm sa test jr 0 = none from rfl] at h
    cases h
  | fuel + 1, aw, sm, sa, k, aw', sm', sa', h => by
    rw [rearr_candLoop_succ] at h
    rcases hf : rearr_findCand s aw test jr with _ | k0
    · rw [hf] at h
      cases h
    · rw [hf] at h
      dsimp only at h
      obtain ⟨hact0, hne0, hge0, hlt0⟩ := rearr_findCand_some s aw test jr k0 hf
      have hdec0 : cardAvail s (Function.update aw k0 test) test <
          cardAvail s aw test := cardAvail_update s aw test k0 hlt0 hact0 hne0
      by_cases hrej : rearr_sa s (rearr_col s sm sa jr k0) < 1/10^6
      · rw [if_pos hrej] at h
        obtain ⟨h1, h2, h3, h4, h5, h6, h7, h8, h9⟩ :=
          rearr_candLoop_some s test jr fuel (Function.update aw k0 test)
            (Function.update sm jr (rearr_col s sm sa jr k0))
            (Function.update sa jr (rearr_sa s (rearr_col s sm sa jr k0)))
            k aw' sm' sa' h
        have hcole : rearr_col s
            (Function.update sm jr (rearr_col s sm sa jr k0))
            (Function.update sa jr (rearr_sa s (rearr_col s sm sa jr k0)))
            jr k = rearr_col s sm sa jr k :=
          rearr_col_congr s _ sm _ sa jr k
            (fun j hj => Function.update_noteq (by omega) _ _)
            (fun j hj => Function.update_noteq (by omega) _ _)
        refine ⟨h1, h2, h3, ?_, ?_, ?_, ?_, ?_, lt_trans h9 hdec0⟩
        · intro j hj
          rw [h4 j hj, Function.update_noteq hj]
        · intro j hj
          rw [h5 j hj, Function.update_noteq hj]
        · rw [h6, hcole]
        · rw [h7, hcole]
        · rw [← hcole]
          exact h8
      · rw [if_neg hrej] at h
        simp only [Option.some.injEq, Prod.mk.injEq] at h
        obtain ⟨hk, ha, hsm, hsa⟩ := h
        subst hk
        subst ha
        subst hsm
        subst hsa
        exact ⟨hact0, hge0, hlt0,
          fun j hj => Function.update_noteq hj _ _,
          fun j hj => Function.update_noteq hj _ _,
          Function.update_same _ _ _,
          Function.update_same _ _ _,
          not_lt.mp hrej, hdec0⟩

theorem cardAvail_swap (s : VCSState) (aw : ℕ → ℚ) (test : ℚ) (jr k : ℕ)
    (hjr : jr < s.m_numElemConstraints) (hk : k < s.m_numElemConstraints)
    (hjk : jr ≠ k) :
    cardAvail (vcs_switch_elem_pos s jr k) (swapFn aw jr k) test =
      cardAvail s aw test := by
  have hfld : (vcs_switch_elem_pos s jr k).m_numElemConstraints =
        s.m_numElemConstraints ∧
      (vcs_switch_elem_pos s jr k).ElActive = swapFn s.ElActive jr k := by
    unfold vcs_switch_elem_pos
    rw [if_neg hjk]
    exact ⟨rfl, rfl⟩
  unfold cardAvail
  rw [hfld.1, hfld.2]
  refine Finset.card_bij' (fun a _ => Equiv.swap jr k a)
    (fun a _ => Equiv.swap jr k a) ?_ ?_ ?_ ?_
  · intro a ha
    simp only [Finset.mem_filter, Finset.mem_range] at ha ⊢
    obtain ⟨ha1, ha2, ha3⟩ := ha
    rw [swapFn_eq_swap] at ha2 ha3
    refine ⟨?_, ha2, ha3⟩
    rw [Equiv.swap_apply_def]
    split_ifs <;> omega
  · intro a ha
    simp only [Finset.mem_filter, Finset.mem_range] at ha ⊢
    obtain ⟨ha1, ha2, ha3⟩ := ha
    refine ⟨?_, ?_, ?_⟩
    · rw [Equiv.swap_apply_def]
      split_ifs <;> omega
    · rw [swapFn_eq_swap, Equiv.swap_apply_self]
      exact ha2
    · rw [swapFn_eq_swap, Equiv.swap_apply_self]
      exact ha3
  · intro a _
    exact Equiv.swap_apply_self _ _ _
  · intro a _
    exact Equiv.swap_apply_self _ _ _

/-- A successful outer run consumes one available constraint per
accepted position. -/
theorem rearr_outer_avail (test : ℚ) :
    ∀ (count : ℕ) (u : VCSState) (aw : ℕ → ℚ) (sm : ℕ → ℕ → ℚ) (sa : ℕ → ℚ)
      (jr : ℕ) (s' : VCSState),
      rearr_outer u aw sm sa test jr count = some s' →
      count ≤ cardAvail u aw test
  | 0, _, _, _, _, _, _, _ => Nat.zero_le _
  | count + 1, u, aw, sm, sa, jr, s', h => by
    rw [rearr_outer_succ] at h
    rcases hc : rearr_candLoop u aw sm sa test jr (u.m_numElemConstraints + 1)
      with _ | ⟨k, aw', sm', sa'⟩
    · rw [hc] at h
      cases h
    · rw [hc] at h
      dsimp only at h
      obtain ⟨hact, hge, hlt, -, -, -, -, -, hcard⟩ :=
        rearr_candLoop_some u test jr _ aw sm sa k aw' sm' sa' hc
      by_cases hjk : jr ≠ k
      · rw [if_pos hjk] at h
        have IH := rearr_outer_avail test count (vcs_switch_elem_pos u jr k)
          (swapFn aw' jr k) sm' sa' (jr + 1) s' h
        rw [cardAvail_swap u aw' test jr k (by omega) hlt hjk] at IH
        omega
      · rw [if_neg hjk] at h
        have IH := rearr_outer_avail test count u aw' sm' sa' (jr + 1) s' h
        omega

theorem cardAvail_le_cardActive (s : VCSState) (aw : ℕ → ℚ) (test : ℚ) :
    cardAvail s aw test ≤ cardActive s := by
  unfold cardAvail cardActive
  refine Finset.card_le_card fun x hx => ?_
  simp only [Finset.mem_filter] at hx ⊢
  exact ⟨hx.1, hx.2.1⟩

/-- The outer-loop invariant: positions below `jr` hold accepted (active,
Gram-Schmidt regular) constraints and the work matrices hold their
canonical Gram-Schmidt data; a successful run extends this to all
`jr + count` positions of the returned state. -/
theorem rearr_outer_invariant (test : ℚ) :
    ∀ (count : ℕ) (u : VCSState) (aw : ℕ → ℚ) (sm : ℕ → ℕ → ℚ) (sa : ℕ → ℚ)
      (jr : ℕ) (s' : VCSState),
      u.m_numComponents ≤ u.m_numSpeciesTot →
      (∀ j, j < jr → ∀ l, sm j l = (gsAcc u jr).1 j l) →
      (∀ j, j < jr → sa j = (gsAcc u jr).2 j) →
      (∀ j, j < jr → u.ElActive j = true ∧ 1/10^6 ≤ gsRes u j) →
      rearr_outer u aw sm sa test jr count = some s' →
      ∀ j, j < jr + count → s'.ElActive j = true ∧ 1/10^6 ≤ gsRes s' j
  | 0, u, aw, sm, sa, jr, s', hns, hsm, hsa, hinv, h => by
    rw [show rearr_outer u aw sm sa test jr 0 = some u from rfl] at h
    cases h
    intro j hj
    exact hinv j (by omega)
  | count + 1, u, aw, sm, sa, jr, s', hns, hsm, hsa, hinv, h => by
    rw [rearr_outer_succ] at h
    rcases hc : rearr_candLoop u aw sm sa test jr (u.m_numElemConstraints + 1)
      with _ | ⟨k, aw', sm', sa'⟩
    · rw [hc] at h
      cases h
    · rw [hc] at h
      dsimp only at h
      obtain ⟨hact, hge, hlt, hsmot, hsaot, hsmjr, hsajr, hres, -⟩ :=
        rearr_candLoop_some u test jr (u.m_numElemConstraints + 1)
          aw sm sa k aw' sm' sa' hc
      have hcolc : rearr_col u sm sa jr k =
          rearr_col u (gsAcc u jr).1 (gsAcc u jr).2 jr k :=
        rearr_col_congr u sm (gsAcc u jr).1 sa (gsAcc u jr).2 jr k
          (fun j hj => funext fun l => hsm j hj l) hsa
      by_cases hjk : jr ≠ k
      · rw [if_pos hjk] at h
        have hfld : (vcs_switch_elem_pos u jr k).m_numComponents =
              u.m_numComponents ∧
            (vcs_switch_elem_pos u jr k).m_numSpeciesTot =
              u.m_numSpeciesTot ∧
            (vcs_switch_elem_pos u jr k).ElActive = swapFn u.ElActive jr k ∧
            (vcs_switch_elem_pos u jr k).FormulaMatrix =
              fmAfterSwitch u jr k := by
          unfold vcs_switch_elem_pos
          rw [if_neg hjk]
          exact ⟨rfl, rfl, rfl, rfl⟩
        obtain ⟨hfnc, hfns, hfact, hffm⟩ := hfld
        have hjrk : jr < k := lt_of_le_of_ne hge hjk
        have hrow_other : ∀ r, r ≠ jr → r ≠ k → ∀ l,
            (vcs_switch_elem_pos u jr k).FormulaMatrix r l =
              u.FormulaMatrix r l := by
          intro r hr1 hr2 l
          rw [hffm]
          unfold fmAfterSwitch swapFn
          by_cases hl : l < u.m_numSpeciesTot
          · rw [if_pos hl, if_neg hr1, if_neg hr2]
          · rw [if_neg hl]
        have hrow_jr : ∀ l, l < u.m_numComponents →
            (vcs_switch_elem_pos u jr k).FormulaMatrix jr l =
              u.FormulaMatrix k l := by
          intro l hl
          rw [hffm]
          unfold fmAfterSwitch swapFn
          rw [if_pos (by omega : l < u.m_numSpeciesTot), if_pos rfl]
        have hgs : ∀ m, m ≤ jr →
            gsAcc (vcs_switch_elem_pos u jr k) m = gsAcc u m := by
          intro m hm
          exact gsAcc_state_congr (vcs_switch_elem_pos u jr k) u hfnc m
            (fun j hj l _ => hrow_other j (by omega) (by omega) l)
        have hcolswap : rearr_col (vcs_switch_elem_pos u jr k)
            (gsAcc (vcs_switch_elem_pos u jr k) jr).1
            (gsAcc (vcs_switch_elem_pos u jr k) jr).2 jr jr =
            rearr_col u (gsAcc u jr).1 (gsAcc u jr).2 jr k := by
          rw [hgs jr le_rfl]
          exact rearr_col_state (vcs_switch_elem_pos u jr k) u hfnc jr jr k
            hrow_jr _ _
        have hns2 : (vcs_switch_elem_pos u jr k).m_numComponents ≤
            (vcs_switch_elem_pos u jr k).m_numSpeciesTot := by
          rw [hfnc, hfns]
          exact hns
        have hsm2 : ∀ j, j < jr + 1 → ∀ l,
            sm' j l = (gsAcc (vcs_switch_elem_pos u jr k) (jr + 1)).1 j l := by
          intro j hj l
          rw [gsAcc_succ, hcolswap, hgs jr le_rfl]
          dsimp only
          rcases eq_or_ne j jr with rfl | hjne
          · rw [hsmjr, hcolc, Function.update_same]
          · rw [hsmot j hjne, Function.update_noteq hjne]
            exact hsm j (by omega) l
        have hsa2 : ∀ j, j < jr + 1 →
            sa' j = (gsAcc (vcs_switch_elem_pos u jr k) (jr + 1)).2 j := by
          intro j hj
          rw [gsAcc_succ,
            rearr_sa_state (vcs_switch_elem_pos u jr k) u hfnc,
            hcolswap, hgs jr le_rfl]
          dsimp only
          rcases eq_or_ne j jr with rfl | hjne
          · rw [hsajr, hcolc, Function.update_same]
          · rw [hsaot j hjne, Function.update_noteq hjne]
            exact hsa j (by omega)
        have hinv2 : ∀ j, j < jr + 1 →
            (vcs_switch_elem_pos u jr k).ElActive j = true ∧
            1/10^6 ≤ gsRes (vcs_switch_elem_pos u jr k) j := by
          intro j hj
          rcases eq_or_ne j jr with rfl | hjne
          · constructor
            · rw [hfact]
              unfold swapFn
              rw [if_pos rfl]
              exact hact
            · unfold gsRes
              rw [gsAcc_succ,
                rearr_sa_state (vcs_switch_elem_pos u j k) u hfnc,
                hcolswap]
              dsimp only
              rw [Function.update_same, ← hcolc]
              exact hres
          · have hjlt : j < jr := by omega
            constructor
            · rw [hfact]
              unfold swapFn
              rw [if_neg hjne, if_neg (by omega : j ≠ k)]
              exact (hinv j hjlt).1
            · unfold gsRes
              rw [hgs (j + 1) (by omega)]
              exact (hinv j hjlt).2
        have IH := rearr_outer_invariant test count
          (vcs_switch_elem_pos u jr k) (swapFn aw' jr k) sm' sa' (jr + 1) s'
          hns2 hsm2 hsa2 hinv2 h
        intro j hj
        exact IH j (by omega)
      · rw [if_neg hjk] at h
        have hkeq : jr = k := not_not.mp hjk
        subst hkeq
        have hsm2 : ∀ j, j < jr + 1 → ∀ l,
            sm' j l = (gsAcc u (jr + 1)).1 j l := by
          intro j hj l
          rw [gsAcc_succ]
          dsimp only
          rcases eq_or_ne j jr with rfl | hjne
          · rw [hsmjr, hcolc, Function.update_same]
          · rw [hsmot j hjne, Function.update_noteq hjne]
            exact hsm j (by omega) l
        have hsa2 : ∀ j, j < jr + 1 → sa' j = (gsAcc u (jr + 1)).2 j := by
          intro j hj
          rw [gsAcc_succ]
          dsimp only
          rcases eq_or_ne j jr with rfl | hjne
          · rw [hsajr, hcolc, Function.update_same]
          · rw [hsaot j hjne, Function.update_noteq hjne]
            exact hsa j (by omega)
        have hinv2 : ∀ j, j < jr + 1 → u.ElActive j = true ∧
            1/10^6 ≤ gsRes u j := by
          intro j hj
          rcases eq_or_ne j jr with rfl | hjne
          · refine ⟨hact, ?_⟩
            unfold gsRes
            rw [gsAcc_succ]
            dsimp only
            rw [Function.update_same, ← hcolc]
            exact hres
          · exact hinv j (by omega)
        have IH := rearr_outer_invariant test count u aw' sm' sa' (jr + 1) s'
          hns hsm2 hsa2 hinv2 h
        intro j hj
        exact IH j (by omega)

/-- C7: when fewer active constraints are available than declared
components, the candidate search must exhaust all constraints before
`C` have been accepted and the Rearranger aborts (the embedded
`exit(-1)`, `none`); conversely, whenever it returns normally it
returns success with `C` accepted constraints in the first `C`
positions: each of the first `C` constraints of the returned state is
active and passed the acceptance test (squared Gram-Schmidt residual at
least `1e-6` against its predecessors). -/
theorem C7_search_exhaustion (s : VCSState)
    (hns : s.m_numComponents ≤ s.m_numSpeciesTot) :
    (cardActive s < s.m_numComponents → vcs_elem_rearrange s = none) ∧
    (∀ s', vcs_elem_rearrange s = some s' →
      ∀ j, j < s.m_numComponents →
        s'.ElActive j = true ∧ 1/10^6 ≤ gsRes s' j) := by
  constructor
  · intro hlt
    unfold vcs_elem_rearrange
    rcases hsent : rearr_sentinel s.gai s.m_numElemConstraints
        (s.m_numElemConstraints + 1) (-(10 ^ 10)) with _ | test
    · rfl
    · dsimp only
      rcases hres : rearr_outer s
          (fun i => if i < s.m_numElemConstraints then s.gai i else 0)
          (fun _ _ => 0) (fun _ => 0) test 0 (max 1 s.m_numComponents)
        with _ | s'
      · rfl
      · exfalso
        have h1 := rearr_outer_avail test (max 1 s.m_numComponents) s
          (fun i => if i < s.m_numElemConstraints then s.gai i else 0)
          (fun _ _ => 0) (fun _ => 0) 0 s' hres
        have h2 := cardAvail_le_cardActive s
          (fun i => if i < s.m_numElemConstraints then s.gai i else 0) test
        have h3 : s.m_numComponents ≤ max 1 s.m_numComponents :=
          le_max_right _ _
        omega
  · intro s' hret j hj
    unfold vcs_elem_rearrange at hret
    rcases hsent : rearr_sentinel s.gai s.m_numElemConstraints
        (s.m_numElemConstraints + 1) (-(10 ^ 10)) with _ | test
    · rw [hsent] at hret
      cases hret
    · rw [hsent] at hret
      dsimp only at hret
      have hm : s.m_numComponents ≤ max 1 s.m_numComponents := le_max_right _ _
      exact rearr_outer_invariant test (max 1 s.m_numComponents) s
        (fun i => if i < s.m_numElemConstraints then s.gai i else 0)
        (fun _ _ => 0) (fun _ => 0) 0 s' hns
        (fun j hj l => absurd hj (Nat.not_lt_zero j))
        (fun j hj => absurd hj (Nat.not_lt_zero j))
        (fun j hj => absurd hj (Nat.not_lt_zero j)) hret j (by omega)

/-- Witness for C7: at `rearrAbortState` (one declared component, no
active constraint) the active count falls short and the Rearranger
aborts. -/
theorem C7_search_exhaustion_witness :
    rearrAbortState.m_numComponents ≤ rearrAbortState.m_numSpeciesTot ∧
    cardActive rearrAbortState < rearrAbortState.m_numComponents ∧
    vcs_elem_rearrange rearrAbortState = none := by
  have hns : rearrAbortState.m_numComponents ≤
      rearrAbortState.m_numSpeciesTot := by
    norm_num [rearrAbortState, baseState]
  have hca : cardActive rearrAbortState < rearrAbortState.m_numComponents := by
    norm_num [cardActive, rearrAbortState, baseState]
  exact ⟨hns, hca, (C7_search_exhaustion rearrAbortState hns).1 hca⟩

end VCSnonideal
